import Mathlib

/-!
# Document graph types and their JSON encoding (`common/content.go`)

A shallow embedding of the Go package `common`: the record types `Page`, `Source`, `Section`,
`metadata`, `Thing`, the constructor `NewThing`, and the timestamp wrapper `JSONTime` with its
`MarshalJSON` method, together with the parts of the Go runtime library the package relies on
(`time.Time.Format` for the layout `time.RFC3339`, and the struct encoder and decoder of
`encoding/json` as they act on these record types).

Conventions of the embedding:

* Go `string` is `GoString`, a list of bytes that need not be valid UTF-8; `lit` gives the bytes
  of a string literal of the source.  The text `time.Time.Format` builds is ASCII and is kept as a
  `List Char`.
* Go `int` is `Int`; `Source.wf` records the 64-bit range.
* A slice is `Option (List _)`: `none` is the nil slice, `some []` the empty non-nil slice.  A map
  is `Option (List (key × value))`: `none` is the nil map, and `some es` lists the entries of a
  non-nil map in an arbitrary order with pairwise distinct keys (`Page.wf`).
* A `time.Time` is given by its Unix second, its nanosecond and the zone offset in effect at that
  instant (what `Time.Zone` reports); the absolute second count is reduced modulo `2 ^ 64` as in
  the unsigned arithmetic of the library.
* `JValue` is the tree of values the encoder walks; `JValue.render` produces the bytes that
  `json.Marshal` writes for it, with the escaping of `encoding/json` (HTML characters, control
  characters, U+2028 and U+2029, and the escape of U+FFFD for bytes that are not valid UTF-8).
  `parseJSON` reads a JSON text as the scanner and the literal decoding of `encoding/json` do, and
  `Unmarshal` is `json.Unmarshal` with a `*Page` destination: the text is parsed, then stored
  value by value.
-/

set_option maxRecDepth 100000

namespace common

/-! ## Timestamps: `time.Time` and the layout `time.RFC3339` -/

/-- A Go `time.Time`: Unix second, nanosecond within the second, and the offset (seconds east of
UTC) of the zone in effect at the instant. -/
structure Time where
  unix : Int
  nsec : Nat
  offset : Int
deriving DecidableEq, Repr

/-- Two timestamps denote the same instant (`Time.Equal`): zone offsets are not compared. -/
def Time.sameInstant (a b : Time) : Prop := a.unix = b.unix ∧ a.nsec = b.nsec

instance (a b : Time) : Decidable (a.sameInstant b) := by
  unfold Time.sameInstant; infer_instance

def secondsPerDay : Nat := 86400
def daysPer400Years : Nat := 365 * 400 + 97
def daysPer100Years : Nat := 365 * 100 + 24
def daysPer4Years : Nat := 365 * 4 + 1
def absoluteZeroYear : Int := -292277022399

/-- The constant `unixToInternal + internalToAbsolute` of package `time`. -/
def unixToAbsolute : Int := 62135596800 + 9223371966579724800

/-- The method `Time.abs`: seconds since the absolute zero year, in the zone of `t`, as a `uint64`. -/
def Time.abs (t : Time) : Nat :=
  ((t.unix + t.offset + unixToAbsolute) % 18446744073709551616).toNat

def isLeap (year : Int) : Bool :=
  year % 4 == 0 && (year % 100 != 0 || year % 400 == 0)

/-- The table `daysBefore`: days in a non-leap year before month `m + 1` starts. -/
def daysBefore : Nat → Nat
  | 0 => 0 | 1 => 31 | 2 => 59 | 3 => 90 | 4 => 120 | 5 => 151 | 6 => 181
  | 7 => 212 | 8 => 243 | 9 => 273 | 10 => 304 | 11 => 334 | _ => 365

structure Date where
  year : Int
  month : Nat
  day : Nat
  yday : Nat
deriving DecidableEq, Repr

/-- Second half of `absDate`: month and day of the month from the day of the year. -/
def monthDay (leap : Bool) (yday : Nat) : Nat × Nat :=
  if leap && yday == 31 + 29 - 1 then (2, 29)
  else
    let day := if leap && yday > 31 + 29 - 1 then yday - 1 else yday
    let month := day / 31
    let e := daysBefore (month + 1)
    if day ≥ e then (month + 2, day - e + 1) else (month + 1, day - daysBefore month + 1)

/-- First half of `absDate`: years since the absolute zero year and day of the year, from a count
of days. -/
def yearDay (d : Nat) : Nat × Nat :=
  let n := d / daysPer400Years
  let y := 400 * n
  let d := d - daysPer400Years * n
  let n := d / daysPer100Years
  let n := n - n / 4
  let y := y + 100 * n
  let d := d - daysPer100Years * n
  let n := d / daysPer4Years
  let y := y + 4 * n
  let d := d - daysPer4Years * n
  let n := d / 365
  let n := n - n / 4
  let y := y + n
  let d := d - 365 * n
  (y, d)

/-- The function `absDate(abs, true)` of package `time`. -/
def absDate (abs : Nat) : Date :=
  let yd := yearDay (abs / secondsPerDay)
  let year : Int := (yd.1 : Int) + absoluteZeroYear
  let md := monthDay (isLeap year) yd.2
  { year := year, month := md.1, day := md.2, yday := yd.2 }

structure Clock where
  hour : Nat
  min : Nat
  sec : Nat
deriving DecidableEq, Repr

/-- The function `absClock` of package `time`. -/
def absClock (abs : Nat) : Clock :=
  let sec := abs % secondsPerDay
  let hour := sec / 3600
  let sec := sec - hour * 3600
  let min := sec / 60
  let sec := sec - min * 60
  { hour := hour, min := min, sec := sec }

/-- The local calendar year `Format` prints for `t`. -/
def Time.localYear (t : Time) : Int := (absDate t.abs).year

/-- The local reading of `t` lies in the years 0000 to 9999, the years the four-digit field of
RFC 3339 can hold. -/
def Time.inRFC3339Range (t : Time) : Prop :=
  -62167219200 ≤ t.unix + t.offset ∧ t.unix + t.offset < 253402300800

instance (t : Time) : Decidable t.inRFC3339Range := by
  unfold Time.inRFC3339Range; infer_instance

def quoteChar : Char := Char.ofNat 34

def backslashChar : Char := Char.ofNat 92

/-- The byte `'0' + d`. -/
def digitChar (d : Nat) : Char := Char.ofNat (48 + d)

/-- The decimal digits of `u`, least significant first, as the loop of `appendInt` writes them into
its 20-byte buffer. -/
def decimalRev : Nat → Nat → List Char
  | 0, _ => []
  | fuel + 1, u =>
    if u < 10 then [digitChar u] else digitChar (u % 10) :: decimalRev fuel (u / 10)

/-- The function `appendInt` of package `time`: sign, zero padding up to `width`, digits. -/
def appendInt (b : List Char) (x : Int) (width : Nat) : List Char :=
  let b := if x < 0 then b ++ ['-'] else b
  let ds := (decimalRev 20 x.natAbs).reverse
  b ++ List.replicate (width - ds.length) '0' ++ ds

/-- The zone chunk `Z07:00` of `Format`; Go integer division truncates towards zero. -/
def appendZone (b : List Char) (offset : Int) : List Char :=
  if offset = 0 then b ++ ['Z']
  else
    let zone := Int.tdiv offset 60
    let b := if zone < 0 then b ++ ['-'] else b ++ ['+']
    let zone := if zone < 0 then -zone else zone
    let b := appendInt b (Int.tdiv zone 60) 2
    let b := b ++ [':']
    appendInt b (Int.tmod zone 60) 2

/-- The date and clock chunks `2006-01-02T15:04:05` of `Format`, for the absolute second `abs`. -/
def appendDateClock (abs : Nat) : List Char :=
  let date := absDate abs
  let clock := absClock abs
  let b := appendInt [] date.year 4
  let b := b ++ ['-']
  let b := appendInt b date.month 2
  let b := b ++ ['-']
  let b := appendInt b date.day 2
  let b := b ++ ['T']
  let b := appendInt b clock.hour 2
  let b := b ++ [':']
  let b := appendInt b clock.min 2
  let b := b ++ [':']
  appendInt b clock.sec 2

/-- The call `t.Format(time.RFC3339)`, layout `2006-01-02T15:04:05Z07:00`. -/
def formatRFC3339 (t : Time) : List Char :=
  appendZone (appendDateClock t.abs) t.offset

/-- Errors of `encoding/json` and of marshaler methods. -/
inductive GoError where
  | marshaler (goType : String) (cause : String)
  | unmarshalType (value : String) (goType : String) (field : String)
  | syntaxError
deriving DecidableEq, Repr

/-- The type `JSONTime`, declared as `type JSONTime time.Time`. -/
abbrev JSONTime := Time

/-- The method `JSONTime.MarshalJSON`: the bytes and the error it returns. -/
def JSONTime.MarshalJSON (t : JSONTime) : String × Option GoError :=
  (String.mk ([quoteChar] ++ formatRFC3339 t ++ [quoteChar]), none)

/-- The zero `time.Time`: January 1 of year 1, 00:00:00 UTC. -/
def zeroTime : Time := { unix := -62135596800, nsec := 0, offset := 0 }

/-! ## Reading the RFC 3339 layout back -/

def readDigit (c : Char) : Option Nat :=
  if 48 ≤ c.toNat ∧ c.toNat ≤ 57 then some (c.toNat - 48) else none

/-- Reads exactly `k` decimal digits. -/
def readNum : Nat → Nat → List Char → Option (Nat × List Char)
  | 0, acc, s => some (acc, s)
  | _ + 1, _, [] => none
  | k + 1, acc, c :: s => (readDigit c).bind fun d => readNum k (acc * 10 + d) s

def readChar (c : Char) : List Char → Option (List Char)
  | [] => none
  | d :: s => if d = c then some s else none

/-- Reads exactly `k` decimal digits and then the separator `sep`. -/
def readField (k : Nat) (sep : Char) (s : List Char) : Option (Nat × List Char) := do
  let r ← readNum k 0 s
  let rest ← readChar sep r.2
  pure (r.1, rest)

def readSign (c : Char) : Option Int :=
  if c = '+' then some 1 else if c = '-' then some (-1) else none

/-- Reads a zone designator of the RFC 3339 layout, `Z` or a signed `hh:mm`, as seconds east of
UTC; it states which offset a written text carries. -/
def readZone (s : List Char) : Option Int :=
  if s = ['Z'] then some 0
  else
    match s with
    | [] => none
    | c :: s => do
      let sg ← readSign c
      let hh ← readField 2 ':' s
      let mm ← readNum 2 0 hh.2
      if mm.2 = [] ∧ hh.1 ≤ 23 ∧ mm.1 ≤ 59 then
        pure (sg * (((hh.1 * 60 + mm.1) * 60 : Nat) : Int))
      else none

def daysIn (year : Int) (month : Nat) : Nat :=
  if month = 2 then (if isLeap year then 29 else 28)
  else daysBefore month - daysBefore (month - 1)

/-- Days from the absolute zero year to January 1 of `year`. -/
def daysSinceEpoch (year : Int) : Nat :=
  let y := (year - absoluteZeroYear).toNat
  let n := y / 400
  let y := y - 400 * n
  let d := daysPer400Years * n
  let n := y / 100
  let y := y - 100 * n
  let d := d + daysPer100Years * n
  let n := y / 4
  let y := y - 4 * n
  let d := d + daysPer4Years * n
  d + 365 * y

/-- Unix second of a calendar date and clock reading taken as UTC. -/
def dateToUnix (year : Int) (month day hour min sec : Nat) : Int :=
  let d := daysSinceEpoch year + daysBefore (month - 1)
  let d := if isLeap year ∧ month ≥ 3 then d + 1 else d
  let d := d + (day - 1)
  let abs := d * secondsPerDay + (hour * 3600 + min * 60 + sec)
  (abs : Int) - unixToAbsolute

/-- The fields written in a text of the layout `YYYY-MM-DDThh:mm:ss` followed by a zone
designator. -/
structure Fields where
  year : Nat
  month : Nat
  day : Nat
  hour : Nat
  min : Nat
  sec : Nat
  offset : Int
deriving DecidableEq, Repr

/-- Reads the fields of a text in the RFC 3339 layout: four-digit year, two-digit month, day,
hour, minute and second, then the zone designator; it states which reading a written text
carries. -/
def readFields (s : List Char) : Option Fields := do
  let y ← readField 4 '-' s
  let mo ← readField 2 '-' y.2
  let d ← readField 2 'T' mo.2
  let h ← readField 2 ':' d.2
  let mi ← readField 2 ':' h.2
  let sc ← readNum 2 0 mi.2
  let off ← readZone sc.2
  pure { year := y.1, month := mo.1, day := d.1, hour := h.1, min := mi.1, sec := sc.1,
         offset := off }

def Fields.valid (f : Fields) : Bool :=
  1 ≤ f.month && f.month ≤ 12 && 1 ≤ f.day && f.day ≤ daysIn f.year f.month
    && f.hour ≤ 23 && f.min ≤ 59 && f.sec ≤ 59

/-- The instant a calendar reading at a zone offset denotes. -/
def Fields.toTime (f : Fields) : Time :=
  { unix := dateToUnix f.year f.month f.day f.hour f.min f.sec - f.offset, nsec := 0,
    offset := f.offset }

/-- Modelled from the spec: the decoder of the timestamp format that the core leaves to its
consumers: the text must have the RFC 3339 layout and denote an existing date and time; anything
else is a parse failure. -/
def parseRFC3339 (s : List Char) : Option Time :=
  match readFields s with
  | none => none
  | some f => if f.valid then some f.toTime else none

/-- Modelled from the spec: decoding of an encoded timestamp, a quoted RFC 3339 text. -/
def decodeJSONTime (text : String) : Option Time :=
  match text.data with
  | [] => none
  | c :: s =>
    if c = quoteChar ∧ s.getLast? = some quoteChar then parseRFC3339 s.dropLast else none

def isDigit (c : Char) : Bool := decide (48 ≤ c.toNat ∧ c.toNat ≤ 57)

def skipDigits : Nat → List Char → Option (List Char)
  | 0, s => some s
  | _ + 1, [] => none
  | k + 1, c :: s => if isDigit c then skipDigits k s else none

/-- The shape `YYYY-MM-DDThh:mm:ss` followed by `Z` or by a sign and `hh:mm`, as the claim about
`MarshalJSON` words it: digits and separators at fixed places, no check of the values. -/
def isRFC3339Layout (s : List Char) : Bool :=
  match (skipDigits 4 s).bind fun s => (readChar '-' s).bind fun s =>
        (skipDigits 2 s).bind fun s => (readChar '-' s).bind fun s =>
        (skipDigits 2 s).bind fun s => (readChar 'T' s).bind fun s =>
        (skipDigits 2 s).bind fun s => (readChar ':' s).bind fun s =>
        (skipDigits 2 s).bind fun s => (readChar ':' s).bind fun s => skipDigits 2 s with
  | none => false
  | some z =>
    z == ['Z'] ||
      (match z with
        | [] => false
        | c :: r =>
          (c == '+' || c == '-') &&
            ((skipDigits 2 r).bind fun r => (readChar ':' r).bind fun r => skipDigits 2 r)
              == some [])


/-! ## Go strings: bytes and their UTF-8 reading -/

abbrev Byte := Fin 256

/-- A Go `string`: any sequence of bytes, not necessarily valid UTF-8. -/
abbrev GoString := List Byte

/-- The function `utf8.EncodeRune`: the bytes of a rune; a surrogate or a value beyond U+10FFFF is
written as U+FFFD. -/
def encodeRune (r : Nat) : List Byte :=
  if r < 128 then [Fin.ofNat r]
  else if r < 2048 then [Fin.ofNat (192 + r / 64), Fin.ofNat (128 + r % 64)]
  else if r > 1114111 ∨ (55296 ≤ r ∧ r ≤ 57343) then [239, 191, 189]
  else if r < 65536 then
    [Fin.ofNat (224 + r / 4096), Fin.ofNat (128 + r / 64 % 64), Fin.ofNat (128 + r % 64)]
  else
    [Fin.ofNat (240 + r / 262144), Fin.ofNat (128 + r / 4096 % 64),
      Fin.ofNat (128 + r / 64 % 64), Fin.ofNat (128 + r % 64)]

/-- A continuation byte, `0x80` to `0xBF`. -/
def isCont (b : Nat) : Bool := decide (128 ≤ b ∧ b ≤ 191)

/-- Two-byte case of `utf8.DecodeRune`, after a first byte `0xC2` to `0xDF`. -/
def decode2 (s0 : Nat) : List Byte → Nat × Nat
  | s1 :: _ => if isCont s1.val then (s0 % 32 * 64 + s1.val % 64, 2) else (65533, 1)
  | [] => (65533, 1)

/-- Three-byte case of `utf8.DecodeRune`, after a first byte `0xE0` to `0xEF`; the second byte
of `0xE0` starts at `0xA0` and that of `0xED` ends at `0x9F`. -/
def decode3 (s0 : Nat) : List Byte → Nat × Nat
  | s1 :: s2 :: _ =>
    if (if s0 = 224 then 160 else 128) ≤ s1.val ∧ s1.val ≤ (if s0 = 237 then 159 else 191)
        ∧ isCont s2.val = true then
      (s0 % 16 * 4096 + s1.val % 64 * 64 + s2.val % 64, 3)
    else (65533, 1)
  | _ => (65533, 1)

/-- Four-byte case of `utf8.DecodeRune`, after a first byte `0xF0` to `0xF4`; the second byte
of `0xF0` starts at `0x90` and that of `0xF4` ends at `0x8F`. -/
def decode4 (s0 : Nat) : List Byte → Nat × Nat
  | s1 :: s2 :: s3 :: _ =>
    if (if s0 = 240 then 144 else 128) ≤ s1.val ∧ s1.val ≤ (if s0 = 244 then 143 else 191)
        ∧ isCont s2.val = true ∧ isCont s3.val = true then
      (s0 % 8 * 262144 + s1.val % 64 * 4096 + s2.val % 64 * 64 + s3.val % 64, 4)
    else (65533, 1)
  | _ => (65533, 1)

/-- The function `utf8.DecodeRune`: the first rune of a byte sequence and its width; a byte that
starts no valid encoding is read as `(U+FFFD, 1)`, the empty sequence as `(U+FFFD, 0)`. -/
def decodeRune : List Byte → Nat × Nat
  | [] => (65533, 0)
  | s0 :: t =>
    if s0.val < 128 then (s0.val, 1)
    else if s0.val < 194 ∨ 244 < s0.val then (65533, 1)
    else if s0.val < 224 then decode2 s0.val t
    else if s0.val < 240 then decode3 s0.val t
    else decode4 s0.val t

/-- The UTF-8 encoding of a text. -/
def utf8 : List Char → GoString
  | [] => []
  | c :: cs => encodeRune c.toNat ++ utf8 cs

/-- The Go string a string literal of the source denotes. -/
def lit (s : String) : GoString := utf8 s.data

/-- A Go string that is valid UTF-8: the encoding of some text. -/
def GoString.valid (s : GoString) : Prop := ∃ cs : List Char, s = utf8 cs

/-! ## JSON values and the text `json.Marshal` writes -/

/-- A JSON document as a tree; the members of an object keep the order in which they are
written.  A number written without fraction and exponent is `num`, any other number is `real`
with its text. -/
inductive JValue where
  | null
  | bool (b : Bool)
  | num (n : Int)
  | real (text : List Byte)
  | str (s : GoString)
  | arr (xs : List JValue)
  | obj (kvs : List (GoString × JValue))
deriving Repr

/-- The name `encoding/json` gives a JSON value in an `UnmarshalTypeError`. -/
def JValue.kind : JValue → String
  | .null => "null"
  | .bool _ => "bool"
  | .num _ => "number"
  | .real _ => "number"
  | .str _ => "string"
  | .arr _ => "array"
  | .obj _ => "object"

/-- The member names of an object, in the order written. -/
def JValue.keys : JValue → List GoString
  | .obj kvs => kvs.map Prod.fst
  | _ => []

/-- The value written under a member name, if the value is an object that has the name. -/
def JValue.member (k : GoString) : JValue → Option JValue
  | .obj kvs => kvs.lookup k
  | _ => none

/-- The byte `"0123456789abcdef"[d]`. -/
def hexByte (d : Nat) : Byte :=
  if d < 10 then Fin.ofNat (48 + d) else Fin.ofNat (87 + d)

/-- One ASCII byte of a string as `encoding/json` writes it with HTML escaping on: the backslash
and the double quote behind a backslash; newline, carriage return and tab as the two-byte
escapes; the other control bytes and `<`, `>`, `&` as a `u00XX` escape; everything else as is
(the encoder as it was before short escapes for backspace and form feed were added). -/
def escapeASCII (b : Byte) : List Byte :=
  if b = 92 ∨ b = 34 then [92, b]
  else if b = 10 then [92, 110]
  else if b = 13 then [92, 114]
  else if b = 9 then [92, 116]
  else if b.val < 32 ∨ b = 60 ∨ b = 62 ∨ b = 38 then
    [92, 117, 48, 48, hexByte (b.val / 16), hexByte (b.val % 16)]
  else [b]

/-- The loop of the encoder over the bytes of a string: ASCII bytes through `escapeASCII`; a byte
that starts no valid UTF-8 encoding as the escape `ufffd`; the line and paragraph separators
U+2028 and U+2029 as the escapes `u2028` and `u2029`; any other rune copied with its bytes. -/
def escapeLoop : Nat → GoString → List Byte
  | 0, _ => []
  | _ + 1, [] => []
  | fuel + 1, b :: t =>
    if b.val < 128 then escapeASCII b ++ escapeLoop fuel t
    else
      let r := decodeRune (b :: t)
      if r.1 = 65533 ∧ r.2 = 1 then [92, 117, 102, 102, 102, 100] ++ escapeLoop fuel t
      else if r.1 = 8232 ∨ r.1 = 8233 then
        [92, 117, 50, 48, 50, hexByte (r.1 % 16)] ++ escapeLoop fuel ((b :: t).drop r.2)
      else (b :: t).take r.2 ++ escapeLoop fuel ((b :: t).drop r.2)

/-- A string as the encoder writes it, between double quotes. -/
def quoteString (s : GoString) : List Byte :=
  34 :: escapeLoop s.length s ++ [34]

/-- The decimal digits of `u` as bytes, least significant first (20 digits hold any Go `int`). -/
def decimalBytesRev : Nat → Nat → List Byte
  | 0, _ => []
  | fuel + 1, u =>
    if u < 10 then [Fin.ofNat (48 + u)]
    else Fin.ofNat (48 + u % 10) :: decimalBytesRev fuel (u / 10)

/-- A Go `int` in decimal, as `strconv.AppendInt` writes it. -/
def intText (n : Int) : List Byte :=
  (if n < 0 then [45] else []) ++ (decimalBytesRev 20 n.natAbs).reverse

mutual
/-- The compact text of a JSON value. -/
def JValue.render : JValue → List Byte
  | .null => [110, 117, 108, 108]
  | .bool b => if b then [116, 114, 117, 101] else [102, 97, 108, 115, 101]
  | .num n => intText n
  | .real text => text
  | .str s => quoteString s
  | .arr xs => 91 :: (renderElems xs).tail ++ [93]
  | .obj kvs => 123 :: (renderMembers kvs).tail ++ [125]
/-- The elements of an array, each behind a comma. -/
def renderElems : List JValue → List Byte
  | [] => []
  | x :: xs => 44 :: x.render ++ renderElems xs
/-- The members of an object, each behind a comma. -/
def renderMembers : List (GoString × JValue) → List Byte
  | [] => []
  | (k, v) :: kvs => 44 :: quoteString k ++ 58 :: v.render ++ renderMembers kvs
end

/-! ## The record types of the package -/

/-- The type `Source`: where the document came from.  Go `int` is 64 bits wide. -/
structure Source where
  ID : Int
  Revision : Int
  TimeUUID : GoString
  Authority : GoString
deriving DecidableEq, Repr

/-- The integer fields of a `Source` are Go `int` values. -/
def Source.wf (s : Source) : Prop :=
  -9223372036854775808 ≤ s.ID ∧ s.ID ≤ 9223372036854775807
    ∧ -9223372036854775808 ≤ s.Revision ∧ s.Revision ≤ 9223372036854775807

instance (s : Source) : Decidable s.wf := by
  unfold Source.wf; infer_instance

/-- The type `Page`: the root node of a document graph. -/
structure Page where
  ID : GoString
  Source : Source
  Name : GoString
  URL : GoString
  DateModified : JSONTime
  HasPart : Option (List GoString)
  About : Option (List (GoString × GoString))
deriving DecidableEq, Repr

/-- The keys of the entries listed for a map. -/
def entryKeys (es : List (GoString × GoString)) : List GoString := es.map Prod.fst

/-- A `Page` as Go can hold it: `int` fields in range, and the entries of `About`, a Go map, under
pairwise distinct keys. -/
def Page.wf (p : Page) : Prop :=
  p.Source.wf ∧ (entryKeys (p.About.getD [])).Nodup

instance (p : Page) : Decidable p.wf := by
  unfold Page.wf; infer_instance

/-- Every string of the page is valid UTF-8. -/
def Page.validUTF8 (p : Page) : Prop :=
  p.ID.valid ∧ p.Source.TimeUUID.valid ∧ p.Source.Authority.valid ∧ p.Name.valid ∧ p.URL.valid
    ∧ (∀ x ∈ p.HasPart.getD [], GoString.valid x)
    ∧ (∀ e ∈ p.About.getD [], GoString.valid e.1 ∧ GoString.valid e.2)

/-- The type `Section`: a section node of a document graph. -/
structure Section where
  ID : GoString
  Name : GoString
  IsPartOf : Option (List GoString)
  DateModified : JSONTime
  Unsafe : GoString
deriving DecidableEq, Repr

/-- A `uuid.UUID`, sixteen bytes, as the number they spell. -/
abbrev UUID := Fin (2 ^ 128)

/-- The zero UUID `uuid.Nil`, the value of a `uuid.UUID` that was never set. -/
def uuidNil : UUID := 0

/-- The type `metadata`; the field `Type` of the source is `Type_` here. -/
structure metadata where
  ID : UUID
  Context : GoString
  Type_ : GoString
deriving DecidableEq, Repr

/-- The type `Thing`, which embeds `metadata`. -/
structure Thing where
  metadata : metadata
  AlternateName : GoString
  Description : GoString
  Image : GoString
  Name : GoString
  SameAs : GoString
deriving DecidableEq, Repr

/-- The function `NewThing`: only `Context` and `Type` are set, every other field keeps the zero
value of its type. -/
def NewThing : Thing :=
  { metadata := { ID := uuidNil, Context := lit "https://schema.org", Type_ := lit "Thing" },
    AlternateName := [], Description := [], Image := [], Name := [], SameAs := [] }

/-! ## `json.Marshal` on the record types -/

/-- A character that stands for itself inside a JSON string literal. -/
def plainChar (c : Char) : Bool :=
  decide (32 ≤ c.toNat) && (c != quoteChar) && (c != backslashChar)

/-- The content of a JSON string literal that has no escape sequences; `none` for any other
text. -/
def stringLiteralBody (text : List Char) : Option (List Char) :=
  match text with
  | [] => none
  | c :: s =>
    if c = quoteChar ∧ s.getLast? = some quoteChar ∧ s.dropLast.all plainChar = true then
      some s.dropLast
    else none

/-- How the encoder takes over what a `MarshalJSON` method returned: an error of the method and
a text that is not valid JSON are reported as a marshaler error, a valid text is copied.  The only
marshaler of the package returns a quoted text, so validity is decided for string literals
without escape sequences, and the copied value is the string they spell. -/
def marshalerValue (goType : String) (out : String × Option GoError) : Except GoError JValue :=
  match out.2 with
  | some _ => .error (.marshaler goType "MarshalJSON returned an error")
  | none =>
    match stringLiteralBody out.1.data with
    | some body => .ok (.str (utf8 body))
    | none => .error (.marshaler goType "invalid JSON text")

/-- The encoding of a `JSONTime` field, through its `MarshalJSON` method. -/
def timeValue (t : JSONTime) : Except GoError JValue :=
  marshalerValue "common.JSONTime" (JSONTime.MarshalJSON t)

/-- The encoding of a `[]string`: `null` for the nil slice, else the array of its elements. -/
def sliceValue : Option (List GoString) → JValue
  | none => .null
  | some xs => .arr (xs.map .str)

/-- Byte-wise order of two strings, the order `<` of Go strings. -/
def lessBytes : List Byte → List Byte → Bool
  | _, [] => false
  | [], _ :: _ => true
  | a :: as, b :: bs =>
    if a.val < b.val then true
    else if b.val < a.val then false
    else lessBytes as bs

/-- The order in which the encoder writes two map entries: `a` is not after `b`. -/
def entryLE (a b : GoString × GoString) : Prop := lessBytes b.1 a.1 = false

instance : DecidableRel entryLE := fun a b => by
  unfold entryLE; infer_instance

/-- The entries of a map sorted by key, as the encoder sorts them before writing. -/
def sortEntries (es : List (GoString × GoString)) : List (GoString × GoString) :=
  es.insertionSort entryLE

/-- The encoding of a `map[string]string`: `null` for the nil map, else the object of its entries
in key order. -/
def mapValue : Option (List (GoString × GoString)) → JValue
  | none => .null
  | some es => .obj ((sortEntries es).map fun e => (e.1, .str e.2))

/-- A string field tagged `omitempty`: left out when the string is empty. -/
def omitEmpty (name : String) (s : GoString) : List (GoString × JValue) :=
  if s = [] then [] else [(lit name, .str s)]

/-- The encoding of a `Source`, field by field under its tags. -/
def marshalSource (s : Source) : JValue :=
  .obj [(lit "id", .num s.ID), (lit "revision", .num s.Revision), (lit "tid", .str s.TimeUUID),
        (lit "authority", .str s.Authority)]

/-- The encoding of a `Page`, field by field under its tags. -/
def marshalPage (p : Page) : Except GoError JValue :=
  match timeValue p.DateModified with
  | .error e => .error e
  | .ok dm =>
    .ok (.obj [(lit "identifier", .str p.ID), (lit "_source", marshalSource p.Source),
               (lit "name", .str p.Name), (lit "url", .str p.URL), (lit "dateModified", dm),
               (lit "hasPart", sliceValue p.HasPart), (lit "about", mapValue p.About)])

/-- The encoding of a `Section`, field by field under its tags; `name` is tagged `omitempty`. -/
def marshalSection (s : Section) : Except GoError JValue :=
  match timeValue s.DateModified with
  | .error e => .error e
  | .ok dm =>
    .ok (.obj ([(lit "id", .str s.ID)] ++ omitEmpty "name" s.Name
               ++ [(lit "isPartOf", sliceValue s.IsPartOf), (lit "dateModified", dm),
                   (lit "unsafe", .str s.Unsafe)]))

/-- The encoding of a `Thing`: the fields of the embedded `metadata` first (`ID` is tagged `-` and
never written), then the fields of `Thing`, those tagged `omitempty` only when not empty. -/
def marshalThing (t : Thing) : JValue :=
  .obj ([(lit "@context", .str t.metadata.Context), (lit "@type", .str t.metadata.Type_)]
        ++ omitEmpty "alternateName" t.AlternateName
        ++ omitEmpty "description" t.Description
        ++ omitEmpty "image" t.Image
        ++ omitEmpty "name" t.Name
        ++ [(lit "sameAs", .str t.SameAs)])

/-- The bytes `json.Marshal` returns for a value whose encoding succeeded. -/
def renderResult : Except GoError JValue → Except GoError (List Byte)
  | .error e => .error e
  | .ok v => .ok v.render

/-! ## Reading JSON text: the scanner and the literal decoding of `json.Unmarshal` -/

def isSpace (b : Byte) : Bool := b == 32 || b == 9 || b == 13 || b == 10

/-- Skips the white space the scanner allows between tokens. -/
def skipSpace : List Byte → List Byte
  | [] => []
  | b :: t => if isSpace b then skipSpace t else b :: t

def isDigitByte (b : Byte) : Bool := decide (48 ≤ b.val ∧ b.val ≤ 57)

/-- The value of a hexadecimal digit, in either case. -/
def hexValue (b : Byte) : Option Nat :=
  if 48 ≤ b.val ∧ b.val ≤ 57 then some (b.val - 48)
  else if 97 ≤ b.val ∧ b.val ≤ 102 then some (b.val - 87)
  else if 65 ≤ b.val ∧ b.val ≤ 70 then some (b.val - 55)
  else none

/-- The function `getu4` after the `u`: the value of four hexadecimal digits. -/
def readHex4 : List Byte → Option (Nat × List Byte)
  | a :: b :: c :: d :: t =>
    match hexValue a, hexValue b, hexValue c, hexValue d with
    | some x, some y, some z, some w => some (((x * 16 + y) * 16 + z) * 16 + w, t)
    | _, _, _, _ => none
  | _ => none

/-- The byte a one-letter escape stands for. -/
def simpleEscape (e : Byte) : Option Byte :=
  if e = 34 ∨ e = 92 ∨ e = 47 then some e
  else if e = 98 then some 8
  else if e = 102 then some 12
  else if e = 110 then some 10
  else if e = 114 then some 13
  else if e = 116 then some 9
  else none

/-- The low half of a surrogate pair, if the text goes on with a `u` escape. -/
def readLowSurrogate : List Byte → Option (Nat × List Byte)
  | 92 :: 117 :: t => readHex4 t
  | _ => none

/-- A `u` escape whose value `rr` has been read: a high surrogate followed by the escape of a low
surrogate is the rune of the pair and takes the second escape too; a surrogate without its partner
is U+FFFD; any other value is itself. -/
def escapedRune (rr : Nat) (t : List Byte) : Nat × List Byte :=
  if 55296 ≤ rr ∧ rr < 57344 then
    match readLowSurrogate t with
    | some (r1, t1) =>
      if rr < 56320 ∧ 56320 ≤ r1 ∧ r1 < 57344 then
        ((rr - 55296) * 1024 + (r1 - 56320) + 65536, t1)
      else (65533, t)
    | none => (65533, t)
  else (rr, t)

/-- The content of a string literal after its opening quote, unquoted as `unquoteBytes` does, and
the text behind the closing quote: escapes are resolved, a control byte or an unknown escape is a
syntax error, and a byte that starts no valid UTF-8 encoding is replaced by U+FFFD. -/
def readString : Nat → List Byte → Option (GoString × List Byte)
  | 0, _ => none
  | _ + 1, [] => none
  | fuel + 1, b :: t =>
    if b = 34 then some ([], t)
    else if b = 92 then
      match t with
      | [] => none
      | e :: t1 =>
        if e = 117 then
          match readHex4 t1 with
          | none => none
          | some (rr, t2) =>
            let r := escapedRune rr t2
            match readString fuel r.2 with
            | none => none
            | some (s, rest) => some (encodeRune r.1 ++ s, rest)
        else
          match simpleEscape e with
          | none => none
          | some c =>
            match readString fuel t1 with
            | none => none
            | some (s, rest) => some (c :: s, rest)
    else if b.val < 32 then none
    else if b.val < 128 then
      match readString fuel t with
      | none => none
      | some (s, rest) => some (b :: s, rest)
    else
      let r := decodeRune (b :: t)
      match readString fuel ((b :: t).drop r.2) with
      | none => none
      | some (s, rest) => some (encodeRune r.1 ++ s, rest)

/-- The leading decimal digits of a text and what follows them. -/
def takeDigits : List Byte → List Byte × List Byte
  | [] => ([], [])
  | b :: t =>
    if isDigitByte b then ((takeDigits t).1.cons b, (takeDigits t).2) else ([], b :: t)

/-- The number a sequence of decimal digits spells. -/
def digitsValue (ds : List Byte) : Nat := ds.foldl (fun acc d => acc * 10 + (d.val - 48)) 0

/-- The integer part of a number literal: a single `0`, or digits that do not start with `0`. -/
def readIntPart (s : List Byte) : Option (List Byte × List Byte) :=
  match s with
  | [] => none
  | b :: t =>
    if b = 48 then some ([48], t)
    else if isDigitByte b then some (takeDigits (b :: t))
    else none

/-- The optional fraction of a number literal: a point and at least one digit. -/
def readFraction (s : List Byte) : Option (List Byte × List Byte) :=
  match s with
  | 46 :: t =>
    if (takeDigits t).1 = [] then none else some ((takeDigits t).1.cons 46, (takeDigits t).2)
  | _ => some ([], s)

/-- The optional exponent of a number literal: `e` or `E`, an optional sign and at least one
digit. -/
def readExponent (s : List Byte) : Option (List Byte × List Byte) :=
  match s with
  | [] => some ([], [])
  | e :: t =>
    if e = 101 ∨ e = 69 then
      match t with
      | [] => none
      | g :: u =>
        if g = 43 ∨ g = 45 then
          if (takeDigits u).1 = [] then none
          else some (e :: g :: (takeDigits u).1, (takeDigits u).2)
        else if (takeDigits t).1 = [] then none
        else some ((takeDigits t).1.cons e, (takeDigits t).2)
    else some ([], e :: t)

/-- A number literal: an optional minus sign, the integer part, an optional fraction and an
optional exponent. -/
def readNumber (s : List Byte) : Option (JValue × List Byte) :=
  let neg := s.head? == some 45
  let s1 := if neg then s.tail else s
  match readIntPart s1 with
  | none => none
  | some (ds, s2) =>
    match readFraction s2 with
    | none => none
    | some (fr, s3) =>
      match readExponent s3 with
      | none => none
      | some (ex, s4) =>
        if fr = [] ∧ ex = [] then
          some (.num (if neg then -(digitsValue ds : Int) else (digitsValue ds : Int)), s4)
        else some (.real ((if neg then [45] else []) ++ ds ++ fr ++ ex), s4)

/-- The text goes on with the given bytes. -/
def readWord (w : List Byte) (s : List Byte) : Option (List Byte) :=
  if w.isPrefixOf s then some (s.drop w.length) else none

mutual
/-- One JSON value at the head of a text (white space before it already skipped), and the text
behind it.  The fuel bounds the nesting and the number of elements; `parseJSON` supplies the
length of the text. -/
def readValue : Nat → List Byte → Option (JValue × List Byte)
  | 0, _ => none
  | _ + 1, [] => none
  | fuel + 1, b :: t =>
    if b = 34 then
      match readString (t.length) t with
      | none => none
      | some (s, rest) => some (.str s, rest)
    else if b = 123 then
      match skipSpace t with
      | [] => none
      | c :: u =>
        if c = 125 then some (.obj [], u)
        else
          match readMembers fuel (c :: u) with
          | none => none
          | some (kvs, rest) => some (.obj kvs, rest)
    else if b = 91 then
      match skipSpace t with
      | [] => none
      | c :: u =>
        if c = 93 then some (.arr [], u)
        else
          match readElems fuel (c :: u) with
          | none => none
          | some (xs, rest) => some (.arr xs, rest)
    else if b = 116 then
      match readWord [114, 117, 101] t with
      | none => none
      | some rest => some (.bool true, rest)
    else if b = 102 then
      match readWord [97, 108, 115, 101] t with
      | none => none
      | some rest => some (.bool false, rest)
    else if b = 110 then
      match readWord [117, 108, 108] t with
      | none => none
      | some rest => some (.null, rest)
    else readNumber (b :: t)
/-- The elements of an array up to and including its closing bracket; the text starts at the
first element. -/
def readElems : Nat → List Byte → Option (List JValue × List Byte)
  | 0, _ => none
  | fuel + 1, s =>
    match readValue fuel s with
    | none => none
    | some (x, rest) =>
      match skipSpace rest with
      | [] => none
      | c :: u =>
        if c = 93 then some ([x], u)
        else if c = 44 then
          match readElems fuel (skipSpace u) with
          | none => none
          | some (xs, rest2) => some (x :: xs, rest2)
        else none
/-- The members of an object up to and including its closing brace; the text starts at the first
member name. -/
def readMembers : Nat → List Byte → Option (List (GoString × JValue) × List Byte)
  | 0, _ => none
  | _ + 1, [] => none
  | fuel + 1, q :: t =>
    if q = 34 then
      match readString (t.length) t with
      | none => none
      | some (k, rest) =>
        match skipSpace rest with
        | [] => none
        | c :: u =>
          if c = 58 then
            match readValue fuel (skipSpace u) with
            | none => none
            | some (v, rest2) =>
              match skipSpace rest2 with
              | [] => none
              | d :: w =>
                if d = 125 then some ([(k, v)], w)
                else if d = 44 then
                  match readMembers fuel (skipSpace w) with
                  | none => none
                  | some (kvs, rest3) => some ((k, v) :: kvs, rest3)
                else none
          else none
    else none
end

/-- A whole JSON text: one value, with white space allowed around it and nothing else. -/
def parseJSON (data : List Byte) : Option JValue :=
  match readValue (data.length + 1) (skipSpace data) with
  | none => none
  | some (v, rest) => if skipSpace rest = [] then some v else none

/-! ## `json.Unmarshal` into a `Page` -/

/-- Keeps the first error, as `saveError` does. -/
def saveError (saved : Option GoError) (e : GoError) : Option GoError :=
  match saved with
  | some s => some s
  | none => some e

/-- Stores a JSON value into a `string`. -/
def storeString (field : String) (v : JValue) (cur : GoString) (err : Option GoError) :
    GoString × Option GoError :=
  match v with
  | .str s => (s, err)
  | .null => (cur, err)
  | other => (cur, saveError err (.unmarshalType other.kind "string" field))

/-- Stores a JSON value into an `int`. -/
def storeInt (field : String) (v : JValue) (cur : Int) (err : Option GoError) :
    Int × Option GoError :=
  match v with
  | .num n =>
    if -9223372036854775808 ≤ n ∧ n ≤ 9223372036854775807 then (n, err)
    else (cur, saveError err (.unmarshalType "number" "int" field))
  | .null => (cur, err)
  | other => (cur, saveError err (.unmarshalType other.kind "int" field))

/-- Stores a JSON value into a `JSONTime`.  The type has no `UnmarshalJSON` method and its
underlying struct `time.Time` has no exported field: an object is accepted and changes nothing,
`null` changes nothing, any other value is a type error. -/
def storeJSONTime (field : String) (v : JValue) (cur : JSONTime) (err : Option GoError) :
    JSONTime × Option GoError :=
  match v with
  | .obj _ => (cur, err)
  | .null => (cur, err)
  | other => (cur, saveError err (.unmarshalType other.kind "common.JSONTime" field))

/-- Stores the elements of a JSON array into the elements of a `[]string`; `old` holds the
elements the slice had before. -/
def storeElems (field : String) : List JValue → List GoString → Option GoError →
    List GoString × Option GoError
  | [], _, err => ([], err)
  | v :: vs, old, err =>
    let r := storeString field v (old.headD []) err
    let rs := storeElems field vs old.tail r.2
    (r.1 :: rs.1, rs.2)

/-- Stores a JSON value into a `[]string`. -/
def storeSlice (field : String) (v : JValue) (cur : Option (List GoString))
    (err : Option GoError) : Option (List GoString) × Option GoError :=
  match v with
  | .arr xs =>
    let r := storeElems field xs (cur.getD []) err
    (some r.1, r.2)
  | .null => (none, err)
  | other => (cur, saveError err (.unmarshalType other.kind "[]string" field))

/-- Sets a key of a map. -/
def mapInsert (k v : GoString) : List (GoString × GoString) → List (GoString × GoString)
  | [] => [(k, v)]
  | e :: es => if e.1 = k then (k, v) :: es else e :: mapInsert k v es

/-- Stores the members of a JSON object into a `map[string]string`. -/
def storeEntries (field : String) : List (GoString × JValue) → List (GoString × GoString) →
    Option GoError → List (GoString × GoString) × Option GoError
  | [], m, err => (m, err)
  | (k, v) :: kvs, m, err =>
    let r := storeString field v [] err
    storeEntries field kvs (mapInsert k r.1 m) r.2

/-- Stores a JSON value into a `map[string]string`. -/
def storeMap (field : String) (v : JValue) (cur : Option (List (GoString × GoString)))
    (err : Option GoError) : Option (List (GoString × GoString)) × Option GoError :=
  match v with
  | .obj kvs =>
    let r := storeEntries field kvs (cur.getD []) err
    (some r.1, r.2)
  | .null => (none, err)
  | other => (cur, saveError err (.unmarshalType other.kind "map[string]string" field))

/-- An ASCII capital letter in lower case, any other byte as it is. -/
def foldByte (b : Byte) : Byte :=
  if 65 ≤ b.val ∧ b.val ≤ 90 then Fin.ofNat (b.val + 32) else b

/-- The loop behind `foldName`; `skip` counts the bytes still to pass over, the rest of a letter
beyond ASCII that was folded already. -/
def foldLoop : Nat → GoString → GoString
  | _, [] => []
  | skip + 1, _ :: t => foldLoop skip t
  | 0, b :: t =>
    if b = 197 ∧ t.head? = some 191 then 115 :: foldLoop 1 t
    else if b = 226 ∧ t.head? = some 132 ∧ t.tail.head? = some 170 then 107 :: foldLoop 2 t
    else foldByte b :: foldLoop 0 t

/-- A name folded as the decoder folds member names that are not spelled exactly like a field
name: ASCII letters without regard to case, and the two letters beyond ASCII that fold to an
ASCII letter, U+017F (long s, the bytes `C5 BF`) and U+212A (Kelvin sign, `E2 84 AA`), as `s` and
`k`. -/
def foldName (s : GoString) : GoString := foldLoop 0 s

/-- The field a member name selects: the field of that exact name if there is one, else the
first field whose name matches without regard to case. -/
def matchField (names : List String) (key : GoString) : Option String :=
  match names.find? fun n => lit n == key with
  | some n => some n
  | none => names.find? fun n => foldName (lit n) == foldName key

def sourceFields : List String := ["id", "revision", "tid", "authority"]

/-- Stores one member of a JSON object into a `Source`. -/
def storeSourceField (s : Source × Option GoError) (kv : GoString × JValue) :
    Source × Option GoError :=
  match matchField sourceFields kv.1 with
  | none => s
  | some name =>
    if name = "id" then
      let r := storeInt "_source.id" kv.2 s.1.ID s.2
      ({ s.1 with ID := r.1 }, r.2)
    else if name = "revision" then
      let r := storeInt "_source.revision" kv.2 s.1.Revision s.2
      ({ s.1 with Revision := r.1 }, r.2)
    else if name = "tid" then
      let r := storeString "_source.tid" kv.2 s.1.TimeUUID s.2
      ({ s.1 with TimeUUID := r.1 }, r.2)
    else
      let r := storeString "_source.authority" kv.2 s.1.Authority s.2
      ({ s.1 with Authority := r.1 }, r.2)

/-- Stores a JSON value into a `Source`. -/
def storeSource (v : JValue) (cur : Source) (err : Option GoError) : Source × Option GoError :=
  match v with
  | .obj kvs => kvs.foldl storeSourceField (cur, err)
  | .null => (cur, err)
  | other => (cur, saveError err (.unmarshalType other.kind "common.Source" "_source"))

def pageFields : List String :=
  ["identifier", "_source", "name", "url", "dateModified", "hasPart", "about"]

/-- Stores one member of a JSON object into a `Page`. -/
def storePageField (p : Page × Option GoError) (kv : GoString × JValue) :
    Page × Option GoError :=
  match matchField pageFields kv.1 with
  | none => p
  | some name =>
    if name = "identifier" then
      let r := storeString "identifier" kv.2 p.1.ID p.2
      ({ p.1 with ID := r.1 }, r.2)
    else if name = "_source" then
      let r := storeSource kv.2 p.1.Source p.2
      ({ p.1 with Source := r.1 }, r.2)
    else if name = "name" then
      let r := storeString "name" kv.2 p.1.Name p.2
      ({ p.1 with Name := r.1 }, r.2)
    else if name = "url" then
      let r := storeString "url" kv.2 p.1.URL p.2
      ({ p.1 with URL := r.1 }, r.2)
    else if name = "dateModified" then
      let r := storeJSONTime "dateModified" kv.2 p.1.DateModified p.2
      ({ p.1 with DateModified := r.1 }, r.2)
    else if name = "hasPart" then
      let r := storeSlice "hasPart" kv.2 p.1.HasPart p.2
      ({ p.1 with HasPart := r.1 }, r.2)
    else
      let r := storeMap "about" kv.2 p.1.About p.2
      ({ p.1 with About := r.1 }, r.2)

/-- The zero value of `Page`, the destination of a decoding into a fresh `Page`. -/
def zeroPage : Page :=
  { ID := [], Source := { ID := 0, Revision := 0, TimeUUID := [], Authority := [] }, Name := [],
    URL := [], DateModified := zeroTime, HasPart := none, About := none }

/-- The store step of `json.Unmarshal` with a `*Page` destination, on the tree of a JSON text
that was found valid: the page it leaves in the destination and the error it returns. -/
def unmarshalPage (v : JValue) (dst : Page) : Page × Option GoError :=
  match v with
  | .obj kvs => kvs.foldl storePageField (dst, none)
  | .null => (dst, none)
  | other => (dst, some (.unmarshalType other.kind "common.Page" ""))

/-- The function `json.Unmarshal` with a `*Page` destination: a text that is not valid JSON is a
syntax error and leaves the destination as it is; a valid text is stored value by value. -/
def Unmarshal (data : List Byte) (dst : Page) : Page × Option GoError :=
  match parseJSON data with
  | none => (dst, some .syntaxError)
  | some v => unmarshalPage v dst

/-- The example page of the specification, last modified at 2020-02-29T23:59:59Z. -/
def examplePage : Page :=
  { ID := lit "Q1",
    Source := { ID := 12, Revision := 3, TimeUUID := lit "abc-1", Authority := lit "en.wiki" },
    Name := lit "Earth", URL := lit "//en.wiki/Earth", DateModified := ⟨1583020799, 0, 0⟩,
    HasPart := some [lit "sec-1", lit "sec-2"], About := some [(lit "wikidata", lit "Q2")] }

/-- A page that is zero but for its identifier, the single byte `0xff`: a Go string that is not
valid UTF-8. -/
def invalidPage : Page := { zeroPage with ID := [255] }

/-- A page that is zero but for its collections: a part named by the byte `0xff`, and two `About`
entries under the keys `0xfe` and `0xff`; none of the three strings is valid UTF-8. -/
def invalidKeysPage : Page :=
  { zeroPage with HasPart := some [[255]], About := some [([254], lit "a"), ([255], lit "b")] }

/-! ## Auxiliary notions for the round trip through JSON text -/

/-- What the encoder writes for one character of a valid UTF-8 string. -/
def escChar (c : Char) : List Byte :=
  if c.toNat < 128 then escapeASCII (Fin.ofNat c.toNat)
  else if c.toNat = 8232 ∨ c.toNat = 8233 then [92, 117, 50, 48, 50, hexByte (c.toNat % 16)]
  else encodeRune c.toNat

/-- What the encoder writes for a valid UTF-8 string, character by character. -/
def escText : List Char → List Byte
  | [] => []
  | c :: cs => escChar c ++ escText cs

mutual
/-- A tree as the encoder builds it from values whose strings are valid UTF-8: integers of at
most 20 digits, no other numbers, valid strings and member names. -/
def JValue.plain : JValue → Prop
  | .null => True
  | .bool _ => True
  | .num n => n.natAbs < 100000000000000000000
  | .real _ => False
  | .str s => GoString.valid s
  | .arr xs => plainElems xs
  | .obj kvs => plainMembers kvs
/-- Every element is plain. -/
def plainElems : List JValue → Prop
  | [] => True
  | x :: xs => x.plain ∧ plainElems xs
/-- Every member has a valid name and a plain value. -/
def plainMembers : List (GoString × JValue) → Prop
  | [] => True
  | (k, v) :: kvs => GoString.valid k ∧ v.plain ∧ plainMembers kvs
end

/-- The text behind a value inside an array or object, or the end of the text. -/
def delimited (rest : List Byte) : Prop :=
  rest = [] ∨ ∃ t, rest = 44 :: t ∨ rest = 93 :: t ∨ rest = 125 :: t

/-! ## Decimal digits written and read -/

theorem appendInt_append (b : List Char) (x : Int) (w : Nat) :
    appendInt b x w = b ++ appendInt [] x w := by
  unfold appendInt
  by_cases h : x < 0 <;> simp [h]

theorem readDigit_digitChar (d : Nat) (h : d < 10) : readDigit (digitChar d) = some d := by
  interval_cases d <;> rfl

theorem isDigit_digitChar (d : Nat) (h : d < 10) : isDigit (digitChar d) = true := by
  interval_cases d <;> rfl

theorem decimalRev_lt10 (k u : Nat) (h : u < 10) : decimalRev (k + 1) u = [digitChar u] := by
  simp [decimalRev, h]

theorem decimalRev_ge10 (k u : Nat) (h : 10 ≤ u) :
    decimalRev (k + 1) u = digitChar (u % 10) :: decimalRev k (u / 10) := by
  simp [decimalRev]; omega

theorem appendInt_two (n : Nat) (h : n < 100) :
    appendInt [] (n : Int) 2 = [digitChar (n / 10), digitChar (n % 10)] := by
  have hx : ¬ ((n : Int) < 0) := by omega
  unfold appendInt
  simp only [hx, if_false, Int.natAbs_ofNat, List.nil_append]
  by_cases h1 : n < 10
  · rw [decimalRev_lt10 _ _ h1]
    have h0 : n / 10 = 0 := by omega
    have h2 : n % 10 = n := by omega
    simp [h0, h2, digitChar]
  · rw [decimalRev_ge10 _ _ (by omega), decimalRev_lt10 _ _ (by omega)]
    simp

theorem appendInt_four (n : Nat) (h : n < 10000) :
    appendInt [] (n : Int) 4
      = [digitChar (n / 1000), digitChar (n / 100 % 10), digitChar (n / 10 % 10),
          digitChar (n % 10)] := by
  have hx : ¬ ((n : Int) < 0) := by omega
  unfold appendInt
  simp only [hx, if_false, Int.natAbs_ofNat, List.nil_append]
  by_cases h1 : n < 10
  · rw [decimalRev_lt10 _ _ h1]
    have e1 : n / 1000 = 0 := by omega
    have e2 : n / 100 % 10 = 0 := by omega
    have e3 : n / 10 % 10 = 0 := by omega
    have e4 : n % 10 = n := by omega
    simp [e1, e2, e3, e4, digitChar, List.replicate]
  · rw [decimalRev_ge10 _ _ (by omega)]
    by_cases h2 : n < 100
    · rw [decimalRev_lt10 _ _ (by omega)]
      have e1 : n / 1000 = 0 := by omega
      have e2 : n / 100 % 10 = 0 := by omega
      have e3 : n / 10 % 10 = n / 10 := by omega
      simp [e1, e2, e3, digitChar, List.replicate]
    · rw [decimalRev_ge10 _ _ (by omega)]
      by_cases h3 : n < 1000
      · rw [decimalRev_lt10 _ _ (by omega)]
        have e1 : n / 1000 = 0 := by omega
        have e2 : n / 100 % 10 = n / 10 / 10 := by omega
        simp [e1, e2, digitChar, List.replicate]
      · rw [decimalRev_ge10 _ _ (by omega), decimalRev_lt10 _ _ (by omega)]
        have e1 : n / 1000 = n / 10 / 10 / 10 := by omega
        have e2 : n / 100 % 10 = n / 10 / 10 % 10 := by omega
        simp [e1, e2]

theorem readNum_two (a b : Nat) (ha : a < 10) (hb : b < 10) (rest : List Char) :
    readNum 2 0 (digitChar a :: digitChar b :: rest) = some (a * 10 + b, rest) := by
  simp [readNum, readDigit_digitChar, ha, hb]

theorem readNum_four (a b c d : Nat) (ha : a < 10) (hb : b < 10) (hc : c < 10) (hd : d < 10)
    (rest : List Char) :
    readNum 4 0 (digitChar a :: digitChar b :: digitChar c :: digitChar d :: rest)
      = some (((a * 10 + b) * 10 + c) * 10 + d, rest) := by
  simp [readNum, readDigit_digitChar, ha, hb, hc, hd]

theorem readField_two (n : Nat) (h : n < 100) (sep : Char) (rest : List Char) :
    readField 2 sep (digitChar (n / 10) :: digitChar (n % 10) :: sep :: rest) = some (n, rest) := by
  have e : n / 10 * 10 + n % 10 = n := by omega
  simp [readField, readNum_two (n / 10) (n % 10) (by omega) (by omega), readChar, e]

theorem readField_four (n : Nat) (h : n < 10000) (sep : Char) (rest : List Char) :
    readField 4 sep (digitChar (n / 1000) :: digitChar (n / 100 % 10) :: digitChar (n / 10 % 10)
      :: digitChar (n % 10) :: sep :: rest) = some (n, rest) := by
  have e : ((n / 1000 * 10 + n / 100 % 10) * 10 + n / 10 % 10) * 10 + n % 10 = n := by omega
  simp [readField, readNum_four (n / 1000) (n / 100 % 10) (n / 10 % 10) (n % 10) (by omega)
    (by omega) (by omega) (by omega), readChar, e]

/-! ## The calendar computed by `absDate` and its inverse -/

theorem isLeap_iff (year : Int) :
    isLeap year = true ↔ (year % 4 = 0 ∧ (year % 100 ≠ 0 ∨ year % 400 = 0)) := by
  simp [isLeap]

theorem monthDay_table : ∀ leap : Bool, ∀ yday < 366, (leap = false → yday < 365) →
    1 ≤ (monthDay leap yday).1 ∧ (monthDay leap yday).1 ≤ 12 ∧ 1 ≤ (monthDay leap yday).2
    ∧ (monthDay leap yday).2 ≤ (if (monthDay leap yday).1 = 2 then (if leap then 29 else 28)
          else daysBefore (monthDay leap yday).1 - daysBefore ((monthDay leap yday).1 - 1))
    ∧ daysBefore ((monthDay leap yday).1 - 1)
        + (if leap = true ∧ (monthDay leap yday).1 ≥ 3 then 1 else 0)
        + ((monthDay leap yday).2 - 1) = yday := by
  decide

theorem yearDay_core (d a r1 b r2 c r3 e r4 y : Nat)
    (ha : a = d / 146097) (hr1 : r1 = d - 146097 * a)
    (hb : b = r1 / 36524 - r1 / 36524 / 4) (hr2 : r2 = r1 - 36524 * b)
    (hc : c = r2 / 1461) (hr3 : r3 = r2 - 1461 * c)
    (he : e = r3 / 365 - r3 / 365 / 4) (hr4 : r4 = r3 - 365 * e)
    (hy : y = 400 * a + 100 * b + 4 * c + e) :
    b ≤ 3 ∧ c ≤ 24 ∧ e ≤ 3 ∧ r4 ≤ 365 ∧ d = 146097 * a + 36524 * b + 1461 * c + 365 * e + r4
    ∧ (r4 = 365 → e = 3 ∧ (c = 24 → b = 3))
    ∧ 365 * e + r4 ≤ 1460 ∧ 1461 * c + 365 * e + r4 ≤ 36524
    ∧ 36524 * b + 1461 * c + 365 * e + r4 ≤ 146096 := by
  have h1 : r1 < 146097 := by omega
  have hb3 : b ≤ 3 := by omega
  have h2 : r2 ≤ 36524 := by omega
  have h2b : b < 3 → r2 < 36524 := by omega
  have hc24 : c ≤ 24 := by omega
  have h3 : r3 < 1461 := by omega
  have he3 : e ≤ 3 := by omega
  have h4 : r4 ≤ 365 := by omega
  refine ⟨hb3, hc24, he3, h4, by omega, ?_, by omega, by omega, by omega⟩
  intro h
  refine ⟨by omega, ?_⟩
  intro hc24e
  by_contra hb3n
  have : r2 < 36524 := h2b (by omega)
  omega

theorem daysSinceEpoch_core (a b c e : Nat) (hb : b ≤ 3) (hc : c ≤ 24) (he : e ≤ 3) :
    daysSinceEpoch (((400 * a + 100 * b + 4 * c + e : Nat) : Int) + absoluteZeroYear)
      = 146097 * a + 36524 * b + 1461 * c + 365 * e := by
  have hz : ((((400 * a + 100 * b + 4 * c + e : Nat) : Int) + absoluteZeroYear)
      - absoluteZeroYear).toNat = 400 * a + 100 * b + 4 * c + e := by
    rw [Int.add_sub_cancel]; exact Int.toNat_ofNat _
  unfold daysSinceEpoch
  rw [hz]
  simp only [daysPer400Years, daysPer100Years, daysPer4Years]
  have e1 : (400 * a + 100 * b + 4 * c + e) / 400 = a := by omega
  rw [e1]
  have e2 : 400 * a + 100 * b + 4 * c + e - 400 * a = 100 * b + 4 * c + e := by omega
  rw [e2]
  have e3 : (100 * b + 4 * c + e) / 100 = b := by omega
  rw [e3]
  have e4 : 100 * b + 4 * c + e - 100 * b = 4 * c + e := by omega
  rw [e4]
  have e5 : (4 * c + e) / 4 = c := by omega
  rw [e5]
  have e6 : 4 * c + e - 4 * c = e := by omega
  rw [e6]

theorem isLeap_core (a b c e : Nat) (hb : b ≤ 3) (hc : c ≤ 24) (he : e ≤ 3) :
    isLeap (((400 * a + 100 * b + 4 * c + e : Nat) : Int) + absoluteZeroYear) = true
      ↔ (e = 3 ∧ (c = 24 → b = 3)) := by
  rw [isLeap_iff]
  simp only [absoluteZeroYear]
  push_cast
  constructor
  · rintro ⟨h1, h2⟩
    refine ⟨by omega, ?_⟩
    intro hc24
    rcases h2 with h2 | h2 <;> omega
  · rintro ⟨h1, h2⟩
    refine ⟨by omega, ?_⟩
    by_cases hc24 : c = 24
    · right
      have := h2 hc24
      omega
    · left
      omega

theorem yearDay_shape (d : Nat) :
    ∃ a b c e r4 : Nat, yearDay d = (400 * a + 100 * b + 4 * c + e, r4)
      ∧ b ≤ 3 ∧ c ≤ 24 ∧ e ≤ 3 ∧ r4 ≤ 365 ∧ d = 146097 * a + 36524 * b + 1461 * c + 365 * e + r4
      ∧ (r4 = 365 → e = 3 ∧ (c = 24 → b = 3))
      ∧ 365 * e + r4 ≤ 1460 ∧ 1461 * c + 365 * e + r4 ≤ 36524
      ∧ 36524 * b + 1461 * c + 365 * e + r4 ≤ 146096 :=
  ⟨_, _, _, _, _, rfl, yearDay_core d _ _ _ _ _ _ _ _ _ rfl rfl rfl rfl rfl rfl rfl rfl rfl⟩

theorem yearDay_spec (d : Nat) :
    daysSinceEpoch (((yearDay d).1 : Int) + absoluteZeroYear) + (yearDay d).2 = d
    ∧ (yearDay d).2 < 366
    ∧ (isLeap (((yearDay d).1 : Int) + absoluteZeroYear) = false → (yearDay d).2 < 365) := by
  obtain ⟨a, b, c, e, r4, hyd, hb, hc, he, h4, hd, hl, _, _, _⟩ := yearDay_shape d
  rw [hyd]
  simp only
  rw [daysSinceEpoch_core a b c e hb hc he]
  refine ⟨by omega, by omega, ?_⟩
  intro hleap
  by_contra hge
  have h365 : r4 = 365 := by omega
  have := (isLeap_core a b c e hb hc he).2 (hl h365)
  rw [this] at hleap
  exact absurd hleap (by simp)

theorem absDate_year (abs : Nat) :
    (absDate abs).year = ((yearDay (abs / secondsPerDay)).1 : Int) + absoluteZeroYear := rfl

theorem absDate_month (abs : Nat) :
    (absDate abs).month = (monthDay (isLeap (absDate abs).year) (yearDay (abs / secondsPerDay)).2).1 :=
  rfl

theorem absDate_day (abs : Nat) :
    (absDate abs).day = (monthDay (isLeap (absDate abs).year) (yearDay (abs / secondsPerDay)).2).2 :=
  rfl

/-- The date `absDate` returns is a real calendar date, and counting its days back gives the day
count it was computed from. -/
theorem absDate_spec (abs : Nat) :
    1 ≤ (absDate abs).month ∧ (absDate abs).month ≤ 12 ∧ 1 ≤ (absDate abs).day
    ∧ (absDate abs).day ≤ daysIn (absDate abs).year (absDate abs).month
    ∧ daysSinceEpoch (absDate abs).year + daysBefore ((absDate abs).month - 1)
        + (if isLeap (absDate abs).year = true ∧ (absDate abs).month ≥ 3 then 1 else 0)
        + ((absDate abs).day - 1) = abs / secondsPerDay := by
  obtain ⟨h1, h2, h3⟩ := yearDay_spec (abs / secondsPerDay)
  rw [← absDate_year] at h1 h3
  have hm := monthDay_table (isLeap (absDate abs).year) (yearDay (abs / secondsPerDay)).2 h2 h3
  rw [← absDate_month, ← absDate_day] at hm
  obtain ⟨m1, m2, m3, m4, m5⟩ := hm
  refine ⟨m1, m2, m3, ?_, ?_⟩
  · unfold daysIn
    by_cases hl : isLeap (absDate abs).year = true
    · simpa [hl] using m4
    · simp only [Bool.not_eq_true] at hl
      simpa [hl] using m4
  · omega

theorem absClock_spec (abs : Nat) :
    (absClock abs).hour ≤ 23 ∧ (absClock abs).min ≤ 59 ∧ (absClock abs).sec ≤ 59
    ∧ (absClock abs).hour * 3600 + (absClock abs).min * 60 + (absClock abs).sec
        = abs % secondsPerDay := by
  simp only [absClock, secondsPerDay]
  omega

/-- Reading the calendar fields `absDate` and `absClock` produce back as an instant returns the
absolute second they were computed from. -/
theorem dateToUnix_absDate (abs : Nat) :
    dateToUnix (absDate abs).year (absDate abs).month (absDate abs).day (absClock abs).hour
      (absClock abs).min (absClock abs).sec = (abs : Int) - unixToAbsolute := by
  obtain ⟨_, _, _, _, hd⟩ := absDate_spec abs
  obtain ⟨_, _, _, hc⟩ := absClock_spec abs
  unfold dateToUnix
  simp only
  rw [hc]
  have key : (if isLeap (absDate abs).year = true ∧ (absDate abs).month ≥ 3
        then daysSinceEpoch (absDate abs).year + daysBefore ((absDate abs).month - 1) + 1
        else daysSinceEpoch (absDate abs).year + daysBefore ((absDate abs).month - 1))
      + ((absDate abs).day - 1) = abs / secondsPerDay := by
    split_ifs with h
    · rw [if_pos h] at hd; omega
    · rw [if_neg h] at hd; omega
  rw [key]
  have : abs / secondsPerDay * secondsPerDay + abs % secondsPerDay = abs := Nat.div_add_mod' _ _
  rw [this]

/-! ## The text `Format` writes, chunk by chunk -/

theorem abs_of_inRange (t : Time) (h : t.inRFC3339Range) :
    (t.abs : Int) = t.unix + t.offset + unixToAbsolute
    ∧ 106751990353566 ≤ t.abs / secondsPerDay ∧ t.abs / secondsPerDay < 106751994005991 := by
  obtain ⟨h1, h2⟩ := h
  have e : (t.abs : Int) = t.unix + t.offset + unixToAbsolute := by
    unfold Time.abs unixToAbsolute
    omega
  refine ⟨e, ?_, ?_⟩
  · unfold unixToAbsolute secondsPerDay at *
    omega
  · unfold unixToAbsolute secondsPerDay at *
    omega

theorem year_of_days (d : Nat) (h1 : 106751990353566 ≤ d) (h2 : d < 106751994005991) :
    0 ≤ ((yearDay d).1 : Int) + absoluteZeroYear
    ∧ ((yearDay d).1 : Int) + absoluteZeroYear ≤ 9999 := by
  obtain ⟨a, b, c, e, r4, hyd, hb, hc, he, h4, hd, hl, k1, k2, k3⟩ := yearDay_shape d
  rw [hyd]
  simp only [absoluteZeroYear]
  push_cast
  have ha1 : 730692555 ≤ a := by omega
  have ha2 : a ≤ 730692580 := by omega
  constructor
  · rcases Nat.lt_or_ge 730692555 a with ha | ha
    · omega
    · have ha3 : a = 730692555 := by omega
      subst ha3
      have hb3 : b = 3 := by omega
      subst hb3
      have hc3 : c = 24 := by omega
      subst hc3
      omega
  · rcases Nat.lt_or_ge a 730692580 with ha | ha
    · omega
    · have ha3 : a = 730692580 := by omega
      subst ha3
      omega

theorem localYear_of_inRange (t : Time) (h : t.inRFC3339Range) :
    0 ≤ t.localYear ∧ t.localYear ≤ 9999 := by
  obtain ⟨_, h1, h2⟩ := abs_of_inRange t h
  exact year_of_days _ h1 h2

theorem daysIn_le (year : Int) (month : Nat) (h1 : 1 ≤ month) (h2 : month ≤ 12) :
    daysIn year month ≤ 31 := by
  unfold daysIn
  interval_cases month <;> simp [daysBefore]; split <;> omega

/-- The date and clock part of the text, digit by digit, for a local year of at most four
digits. -/
theorem appendDateClock_digits (abs : Nat) (y : Nat) (hy : (absDate abs).year = (y : Int))
    (hy4 : y < 10000) :
    appendDateClock abs =
      digitChar (y / 1000) :: digitChar (y / 100 % 10) :: digitChar (y / 10 % 10)
        :: digitChar (y % 10) :: '-'
        :: digitChar ((absDate abs).month / 10) :: digitChar ((absDate abs).month % 10) :: '-'
        :: digitChar ((absDate abs).day / 10) :: digitChar ((absDate abs).day % 10) :: 'T'
        :: digitChar ((absClock abs).hour / 10) :: digitChar ((absClock abs).hour % 10) :: ':'
        :: digitChar ((absClock abs).min / 10) :: digitChar ((absClock abs).min % 10) :: ':'
        :: digitChar ((absClock abs).sec / 10) :: [digitChar ((absClock abs).sec % 10)] := by
  obtain ⟨m1, m2, d1, d2, _⟩ := absDate_spec abs
  obtain ⟨c1, c2, c3, _⟩ := absClock_spec abs
  have hd := daysIn_le (absDate abs).year (absDate abs).month m1 m2
  unfold appendDateClock
  simp only
  rw [appendInt_append _ ((absClock abs).sec : Int), appendInt_append _ ((absClock abs).min : Int),
    appendInt_append _ ((absClock abs).hour : Int), appendInt_append _ ((absDate abs).day : Int),
    appendInt_append _ ((absDate abs).month : Int), hy, appendInt_four y hy4,
    appendInt_two _ (by omega : (absDate abs).month < 100),
    appendInt_two _ (by omega : (absDate abs).day < 100),
    appendInt_two _ (by omega : (absClock abs).hour < 100),
    appendInt_two _ (by omega : (absClock abs).min < 100),
    appendInt_two _ (by omega : (absClock abs).sec < 100)]
  simp

/-- The zone chunk for a non-zero offset below 100 hours: sign of the offset in whole minutes,
two-digit hours, colon, two-digit minutes. -/
theorem appendZone_digits (b : List Char) (off : Int) (h0 : off ≠ 0) (hlt : off.natAbs < 360000) :
    appendZone b off =
      b ++ [if off ≤ -60 then '-' else '+',
            digitChar (off.natAbs / 3600 / 10), digitChar (off.natAbs / 3600 % 10), ':',
            digitChar (off.natAbs / 60 % 60 / 10), digitChar (off.natAbs / 60 % 60 % 10)] := by
  unfold appendZone
  rw [if_neg h0]
  simp only
  obtain ⟨n, rfl | rfl⟩ := Int.eq_nat_or_neg off
  · have hz : Int.tdiv (n : Int) 60 = ((n / 60 : Nat) : Int) := by
      rfl
    have hneg : ¬ (((n / 60 : Nat) : Int) < 0) := by omega
    have hs : ¬ ((n : Int) ≤ -60) := by omega
    rw [hz, if_neg hneg, if_neg hneg, if_neg hs]
    have h1 : Int.tdiv ((n / 60 : Nat) : Int) 60 = ((n / 60 / 60 : Nat) : Int) := by
      rfl
    have h2 : Int.tmod ((n / 60 : Nat) : Int) 60 = ((n / 60 % 60 : Nat) : Int) := by
      rfl
    simp only [Int.natAbs_ofNat] at hlt ⊢
    rw [h1, h2, appendInt_append _ ((n / 60 % 60 : Nat) : Int), appendInt_append _ ((n / 60 / 60 : Nat) : Int),
      appendInt_two _ (by omega : n / 60 / 60 < 100), appendInt_two _ (by omega : n / 60 % 60 < 100)]
    have e : n / 60 / 60 = n / 3600 := by omega
    simp [e]
  · simp only [Int.natAbs_neg, Int.natAbs_ofNat] at hlt ⊢
    have hz : Int.tdiv (-(n : Int)) 60 = -((n / 60 : Nat) : Int) := by
      rw [Int.neg_tdiv]; rfl
    rw [hz]
    have h1 : Int.tdiv ((n / 60 : Nat) : Int) 60 = ((n / 60 / 60 : Nat) : Int) := by
      rfl
    have h2 : Int.tmod ((n / 60 : Nat) : Int) 60 = ((n / 60 % 60 : Nat) : Int) := by
      rfl
    have e : n / 60 / 60 = n / 3600 := by omega
    by_cases hn : n < 60
    · have hq : n / 60 = 0 := by omega
      have hneg : ¬ (-((n / 60 : Nat) : Int) < 0) := by omega
      have hs : ¬ (-(n : Int) ≤ -60) := by omega
      rw [if_neg hneg, if_neg hneg, if_neg hs]
      rw [hq]
      simp only [Nat.cast_zero, neg_zero]
      have z1 : Int.tdiv 0 60 = ((0 : Nat) : Int) := by decide
      have z2 : Int.tmod 0 60 = ((0 : Nat) : Int) := by decide
      rw [z1, z2, appendInt_append _ ((0 : Nat) : Int), appendInt_append (b ++ ['+']) ((0 : Nat) : Int),
        appendInt_two 0 (by omega)]
      have e1 : n / 3600 = 0 := by omega
      simp [e1]
    · have hneg : (-((n / 60 : Nat) : Int) < 0) := by omega
      have hs : (-(n : Int) ≤ -60) := by omega
      rw [if_pos hneg, if_pos hneg, if_pos hs, neg_neg, h1, h2,
        appendInt_append _ ((n / 60 % 60 : Nat) : Int), appendInt_append _ ((n / 60 / 60 : Nat) : Int),
        appendInt_two _ (by omega : n / 60 / 60 < 100), appendInt_two _ (by omega : n / 60 % 60 < 100)]
      simp [e]

/-! ## Reading the written text back -/

theorem readZone_Z : readZone ['Z'] = some 0 := by decide

theorem readZone_digits (off : Int) (hm : off % 60 = 0)
    (hlt : off.natAbs < 86400) :
    readZone [if off ≤ -60 then '-' else '+',
        digitChar (off.natAbs / 3600 / 10), digitChar (off.natAbs / 3600 % 10), ':',
        digitChar (off.natAbs / 60 % 60 / 10), digitChar (off.natAbs / 60 % 60 % 10)]
      = some off := by
  have hf := readField_two (off.natAbs / 3600) (by omega) ':'
    [digitChar (off.natAbs / 60 % 60 / 10), digitChar (off.natAbs / 60 % 60 % 10)]
  have hn := readNum_two (off.natAbs / 60 % 60 / 10) (off.natAbs / 60 % 60 % 10) (by omega)
    (by omega) []
  have e : off.natAbs / 60 % 60 / 10 * 10 + off.natAbs / 60 % 60 % 10 = off.natAbs / 60 % 60 := by
    omega
  rw [e] at hn
  have hc : off.natAbs / 3600 ≤ 23 ∧ off.natAbs / 60 % 60 ≤ 59 := by omega
  unfold readZone
  by_cases hs : off ≤ -60
  · simp only [if_pos hs]
    rw [if_neg (by simp)]
    simp only [readSign, hf, hn, bind, Option.bind, pure]
    simp only [hc, and_self, if_true, show ¬ ('-' = '+') by decide, if_false]
    congr 1
    omega
  · simp only [if_neg hs]
    rw [if_neg (by simp)]
    simp only [readSign, hf, hn, bind, Option.bind, pure]
    simp only [hc, and_self, if_true]
    congr 1
    omega

/-- The fields a reader finds in the text `Format` wrote are the local date and clock reading and
the zone offset of `t`, when the offset is a whole number of minutes within a day and the local
year has four digits. -/
theorem readFields_format (t : Time) (hr : t.inRFC3339Range) (hm : t.offset % 60 = 0)
    (hlt : t.offset.natAbs < 86400) :
    readFields (formatRFC3339 t) = some
      { year := t.localYear.toNat, month := (absDate t.abs).month, day := (absDate t.abs).day,
        hour := (absClock t.abs).hour, min := (absClock t.abs).min, sec := (absClock t.abs).sec,
        offset := t.offset } := by
  obtain ⟨y0, y1⟩ := localYear_of_inRange t hr
  have hy : (absDate t.abs).year = ((t.localYear.toNat : Nat) : Int) := by
    unfold Time.localYear at *
    omega
  have hy4 : t.localYear.toNat < 10000 := by omega
  obtain ⟨m1, m2, d1, d2, _⟩ := absDate_spec t.abs
  obtain ⟨c1, c2, c3, _⟩ := absClock_spec t.abs
  have hd := daysIn_le (absDate t.abs).year (absDate t.abs).month m1 m2
  unfold formatRFC3339
  rw [appendDateClock_digits t.abs _ hy hy4]
  have hz : ∃ z, appendZone
      (digitChar (t.localYear.toNat / 1000) :: digitChar (t.localYear.toNat / 100 % 10)
        :: digitChar (t.localYear.toNat / 10 % 10) :: digitChar (t.localYear.toNat % 10) :: '-'
        :: digitChar ((absDate t.abs).month / 10) :: digitChar ((absDate t.abs).month % 10) :: '-'
        :: digitChar ((absDate t.abs).day / 10) :: digitChar ((absDate t.abs).day % 10) :: 'T'
        :: digitChar ((absClock t.abs).hour / 10) :: digitChar ((absClock t.abs).hour % 10) :: ':'
        :: digitChar ((absClock t.abs).min / 10) :: digitChar ((absClock t.abs).min % 10) :: ':'
        :: digitChar ((absClock t.abs).sec / 10) :: [digitChar ((absClock t.abs).sec % 10)])
      t.offset =
      digitChar (t.localYear.toNat / 1000) :: digitChar (t.localYear.toNat / 100 % 10)
        :: digitChar (t.localYear.toNat / 10 % 10) :: digitChar (t.localYear.toNat % 10) :: '-'
        :: digitChar ((absDate t.abs).month / 10) :: digitChar ((absDate t.abs).month % 10) :: '-'
        :: digitChar ((absDate t.abs).day / 10) :: digitChar ((absDate t.abs).day % 10) :: 'T'
        :: digitChar ((absClock t.abs).hour / 10) :: digitChar ((absClock t.abs).hour % 10) :: ':'
        :: digitChar ((absClock t.abs).min / 10) :: digitChar ((absClock t.abs).min % 10) :: ':'
        :: digitChar ((absClock t.abs).sec / 10) :: digitChar ((absClock t.abs).sec % 10) :: z
      ∧ readZone z = some t.offset := by
    by_cases h0 : t.offset = 0
    · refine ⟨['Z'], ?_, ?_⟩
      · rw [h0]; simp [appendZone]
      · rw [h0]; exact readZone_Z
    · refine ⟨_, ?_, readZone_digits t.offset hm hlt⟩
      rw [appendZone_digits _ _ h0 (by omega)]
      simp
  obtain ⟨z, hz1, hz2⟩ := hz
  rw [hz1]
  have e (n : Nat) : n / 10 * 10 + n % 10 = n := by omega
  have r6 := readNum_two ((absClock t.abs).sec / 10) ((absClock t.abs).sec % 10) (by omega)
    (by omega) z
  rw [e] at r6
  simp only [readFields, bind, Option.bind, pure,
    readField_four _ hy4, readField_two _ (by omega : (absDate t.abs).month < 100),
    readField_two _ (by omega : (absDate t.abs).day < 100),
    readField_two _ (by omega : (absClock t.abs).hour < 100),
    readField_two _ (by omega : (absClock t.abs).min < 100), r6, hz2]

theorem parseRFC3339_format (t : Time) (hn : t.nsec = 0) (hm : t.offset % 60 = 0)
    (hlt : t.offset.natAbs < 86400) (hr : t.inRFC3339Range) :
    parseRFC3339 (formatRFC3339 t) = some t := by
  obtain ⟨y0, y1⟩ := localYear_of_inRange t hr
  have hy : ((t.localYear.toNat : Nat) : Int) = (absDate t.abs).year := by
    unfold Time.localYear at *
    omega
  obtain ⟨m1, m2, d1, d2, _⟩ := absDate_spec t.abs
  obtain ⟨c1, c2, c3, _⟩ := absClock_spec t.abs
  obtain ⟨ha, _, _⟩ := abs_of_inRange t hr
  unfold parseRFC3339
  rw [readFields_format t hr hm hlt]
  have hv : Fields.valid
      { year := t.localYear.toNat, month := (absDate t.abs).month, day := (absDate t.abs).day,
        hour := (absClock t.abs).hour, min := (absClock t.abs).min, sec := (absClock t.abs).sec,
        offset := t.offset } = true := by
    simp only [Fields.valid, hy]
    simp [m1, m2, d1, d2, c1, c2, c3]
  simp only [hv, if_true]
  simp only [Fields.toTime, hy, dateToUnix_absDate, ha]
  cases t
  simp only at hn
  subst hn
  simp

theorem decodeJSONTime_marshal (t : Time) (hn : t.nsec = 0) (hm : t.offset % 60 = 0)
    (hlt : t.offset.natAbs < 86400) (hr : t.inRFC3339Range) :
    decodeJSONTime (JSONTime.MarshalJSON t).1 = some t := by
  unfold decodeJSONTime JSONTime.MarshalJSON
  simp only [List.singleton_append, List.cons_append]
  rw [if_pos ⟨trivial, by simp⟩]
  simp only [List.dropLast_concat]
  exact parseRFC3339_format t hn hm hlt hr

/-! ## The layout of the written text -/

theorem isRFC3339Layout_format (t : Time) (hr : t.inRFC3339Range)
    (hlt : t.offset.natAbs < 360000) :
    isRFC3339Layout (formatRFC3339 t) = true := by
  obtain ⟨y0, y1⟩ := localYear_of_inRange t hr
  have hy : (absDate t.abs).year = ((t.localYear.toNat : Nat) : Int) := by
    unfold Time.localYear at *
    omega
  have hy4 : t.localYear.toNat < 10000 := by omega
  obtain ⟨m1, m2, d1, d2, _⟩ := absDate_spec t.abs
  obtain ⟨c1, c2, c3, _⟩ := absClock_spec t.abs
  have hd := daysIn_le (absDate t.abs).year (absDate t.abs).month m1 m2
  have dg : ∀ n : Nat, n < 100 → isDigit (digitChar (n / 10)) = true
      ∧ isDigit (digitChar (n % 10)) = true := fun n hn =>
    ⟨isDigit_digitChar _ (by omega), isDigit_digitChar _ (by omega)⟩
  have g1 := isDigit_digitChar (t.localYear.toNat / 1000) (by omega)
  have g2 := isDigit_digitChar (t.localYear.toNat / 100 % 10) (by omega)
  have g3 := isDigit_digitChar (t.localYear.toNat / 10 % 10) (by omega)
  have g4 := isDigit_digitChar (t.localYear.toNat % 10) (by omega)
  obtain ⟨a1, a2⟩ := dg (absDate t.abs).month (by omega)
  obtain ⟨a3, a4⟩ := dg (absDate t.abs).day (by omega)
  obtain ⟨a5, a6⟩ := dg (absClock t.abs).hour (by omega)
  obtain ⟨a7, a8⟩ := dg (absClock t.abs).min (by omega)
  obtain ⟨a9, a10⟩ := dg (absClock t.abs).sec (by omega)
  unfold formatRFC3339
  rw [appendDateClock_digits t.abs _ hy hy4]
  by_cases h0 : t.offset = 0
  · rw [h0]
    simp [appendZone, isRFC3339Layout, skipDigits, readChar, g1, g2, g3, g4, a1, a2, a3, a4, a5,
      a6, a7, a8, a9, a10]
  · rw [appendZone_digits _ _ h0 hlt]
    obtain ⟨b1, b2⟩ := dg (t.offset.natAbs / 3600) (by omega)
    obtain ⟨b3, b4⟩ := dg (t.offset.natAbs / 60 % 60) (by omega)
    by_cases hs : t.offset ≤ -60
    · simp [hs, isRFC3339Layout, skipDigits, readChar, g1, g2, g3, g4, a1, a2, a3, a4, a5,
        a6, a7, a8, a9, a10, b1, b2, b3, b4]
    · simp [hs, isRFC3339Layout, skipDigits, readChar, g1, g2, g3, g4, a1, a2, a3, a4, a5,
        a6, a7, a8, a9, a10, b1, b2, b3, b4]

/-- The zone chunk is appended to the date and clock chunks, and for an offset of whole minutes
within a day it reads back as that offset. -/
theorem formatRFC3339_zone (t : Time) (hm : t.offset % 60 = 0) (hlt : t.offset.natAbs < 86400) :
    ∃ zone, formatRFC3339 t = appendDateClock t.abs ++ zone ∧ readZone zone = some t.offset := by
  unfold formatRFC3339
  by_cases h0 : t.offset = 0
  · refine ⟨['Z'], ?_, ?_⟩
    · rw [h0]; simp [appendZone]
    · rw [h0]; exact readZone_Z
  · exact ⟨_, appendZone_digits _ _ h0 (by omega), readZone_digits t.offset hm hlt⟩

/-! ## The encoder accepts what `MarshalJSON` returns -/

theorem plainChar_digitChar (d : Nat) (h : d < 10) : plainChar (digitChar d) = true := by
  interval_cases d <;> rfl

theorem plain_decimalRev (fuel u : Nat) : ∀ c ∈ decimalRev fuel u, plainChar c = true := by
  induction fuel generalizing u with
  | zero => intro c hc; simp [decimalRev] at hc
  | succ k ih =>
    intro c hc
    unfold decimalRev at hc
    split_ifs at hc with h
    · simp only [List.mem_singleton] at hc
      rw [hc]; exact plainChar_digitChar u h
    · rcases List.mem_cons.1 hc with hc | hc
      · rw [hc]; exact plainChar_digitChar _ (by omega)
      · exact ih _ c hc

theorem plain_appendInt (b : List Char) (x : Int) (w : Nat)
    (hb : ∀ c ∈ b, plainChar c = true) : ∀ c ∈ appendInt b x w, plainChar c = true := by
  intro c hc
  unfold appendInt at hc
  simp only [List.mem_append, List.mem_replicate, List.mem_reverse] at hc
  rcases hc with (hc | hc) | hc
  · split_ifs at hc
    · rcases List.mem_append.1 hc with hc | hc
      · exact hb c hc
      · simp only [List.mem_singleton] at hc
        rw [hc]; decide
    · exact hb c hc
  · rw [hc.2]; decide
  · exact plain_decimalRev _ _ c hc

theorem plain_snoc (b : List Char) (a : Char) (hb : ∀ c ∈ b, plainChar c = true)
    (ha : plainChar a = true) : ∀ c ∈ b ++ [a], plainChar c = true := by
  intro c hc
  rcases List.mem_append.1 hc with hc | hc
  · exact hb c hc
  · simp only [List.mem_singleton] at hc
    rw [hc]; exact ha

theorem plain_appendZone (b : List Char) (off : Int) (hb : ∀ c ∈ b, plainChar c = true) :
    ∀ c ∈ appendZone b off, plainChar c = true := by
  unfold appendZone
  by_cases h0 : off = 0
  · rw [if_pos h0]
    exact plain_snoc b _ hb (by decide)
  · rw [if_neg h0]
    simp only
    have hs : ∀ c ∈ (if Int.tdiv off 60 < 0 then b ++ ['-'] else b ++ ['+']),
        plainChar c = true := by
      split_ifs
      · exact plain_snoc b _ hb (by decide)
      · exact plain_snoc b _ hb (by decide)
    exact plain_appendInt _ _ _ (plain_snoc _ _ (plain_appendInt _ _ _ hs) (by decide))

theorem plain_appendDateClock (abs : Nat) : ∀ c ∈ appendDateClock abs, plainChar c = true := by
  unfold appendDateClock
  simp only
  exact plain_appendInt _ _ _ (plain_snoc _ _ (plain_appendInt _ _ _ (plain_snoc _ _
    (plain_appendInt _ _ _ (plain_snoc _ _ (plain_appendInt _ _ _ (plain_snoc _ _
      (plain_appendInt _ _ _ (plain_snoc _ _ (plain_appendInt _ _ _ (by simp))
        (by decide))) (by decide))) (by decide))) (by decide))) (by decide))

theorem plain_formatRFC3339 (t : Time) : ∀ c ∈ formatRFC3339 t, plainChar c = true :=
  plain_appendZone _ _ (plain_appendDateClock _)

theorem stringLiteralBody_quoted (body : List Char) (h : ∀ c ∈ body, plainChar c = true) :
    stringLiteralBody (quoteChar :: body ++ [quoteChar]) = some body := by
  unfold stringLiteralBody
  simp only [List.cons_append]
  rw [if_pos]
  · simp
  · refine ⟨trivial, by simp, ?_⟩
    simp only [List.dropLast_concat, List.all_eq_true]
    exact h

/-- The encoder never rejects a `JSONTime`: its `MarshalJSON` returns no error and a valid string
literal, whose content is the formatted time. -/
theorem timeValue_ok (t : JSONTime) : timeValue t = .ok (.str (utf8 (formatRFC3339 t))) := by
  unfold timeValue marshalerValue JSONTime.MarshalJSON
  simp only [List.singleton_append]
  rw [stringLiteralBody_quoted _ (plain_formatRFC3339 t)]

theorem marshalPage_ok (p : Page) :
    marshalPage p = .ok (.obj [(lit "identifier", .str p.ID), (lit "_source", marshalSource p.Source),
      (lit "name", .str p.Name), (lit "url", .str p.URL),
      (lit "dateModified", .str (utf8 (formatRFC3339 p.DateModified))),
      (lit "hasPart", sliceValue p.HasPart), (lit "about", mapValue p.About)]) := by
  unfold marshalPage
  rw [timeValue_ok]

theorem marshalSection_ok (s : Section) :
    marshalSection s = .ok (.obj ([(lit "id", .str s.ID)] ++ omitEmpty "name" s.Name
      ++ [(lit "isPartOf", sliceValue s.IsPartOf),
          (lit "dateModified", .str (utf8 (formatRFC3339 s.DateModified))),
          (lit "unsafe", .str s.Unsafe)])) := by
  unfold marshalSection
  rw [timeValue_ok]

/-! ## The key order of map entries -/

theorem lessBytes_asymm (a b : List Byte) : lessBytes a b = true → lessBytes b a = false := by
  induction a generalizing b with
  | nil =>
    cases b with
    | nil => simp [lessBytes]
    | cons y bs => simp [lessBytes]
  | cons x as ih =>
    cases b with
    | nil => simp [lessBytes]
    | cons y bs =>
      simp only [lessBytes]
      intro h
      split_ifs at h ⊢
      · omega
      · rfl
      · exact ih bs h

theorem lessBytes_neg_trans (c b a : List Byte) :
    lessBytes c a = true → lessBytes b a = true ∨ lessBytes c b = true := by
  induction a generalizing b c with
  | nil => cases c <;> simp [lessBytes]
  | cons x as ih =>
    cases c with
    | nil =>
      cases b with
      | nil => simp [lessBytes]
      | cons y bs => simp [lessBytes]
    | cons z cs =>
      cases b with
      | nil => simp [lessBytes]
      | cons y bs =>
        simp only [lessBytes]
        intro h
        by_cases hzx : z.val < x.val
        · by_cases hyx : y.val < x.val
          · left; simp [hyx]
          · right
            have : z.val < y.val := by omega
            simp [this]
        · rw [if_neg hzx] at h
          by_cases hxz : x.val < z.val
          · rw [if_pos hxz] at h; cases h
          · rw [if_neg hxz] at h
            by_cases hyx : y.val < x.val
            · left; simp [hyx]
            · by_cases hxy : x.val < y.val
              · right
                have : z.val < y.val := by omega
                simp [this]
              · have e1 : ¬ z.val < y.val := by omega
                have e2 : ¬ y.val < z.val := by omega
                simp only [hyx, hxy, e1, e2, if_false]
                exact ih cs bs h

instance : IsTotal (GoString × GoString) entryLE where
  total a b := by
    unfold entryLE
    cases h : lessBytes b.1 a.1 with
    | false => left; rfl
    | true => right; exact lessBytes_asymm _ _ h

instance : IsTrans (GoString × GoString) entryLE where
  trans a b c hab hbc := by
    unfold entryLE at *
    cases h : lessBytes c.1 a.1 with
    | false => rfl
    | true =>
      rcases lessBytes_neg_trans _ b.1 _ h with h1 | h1
      · rw [h1] at hab; cases hab
      · rw [h1] at hbc; cases hbc

theorem sortEntries_perm (es : List (GoString × GoString)) : (sortEntries es).Perm es :=
  List.perm_insertionSort _ _

theorem sortEntries_sorted (es : List (GoString × GoString)) : (sortEntries es).Sorted entryLE :=
  List.sorted_insertionSort _ _

/-- Entries already in key order are written in the order they are in. -/
theorem sortEntries_idem (es : List (GoString × GoString)) :
    sortEntries (sortEntries es) = sortEntries es :=
  List.Sorted.insertionSort_eq (sortEntries_sorted es)

theorem sortEntries_keys_nodup (es : List (GoString × GoString)) (h : (entryKeys es).Nodup) :
    (entryKeys (sortEntries es)).Nodup :=
  ((sortEntries_perm es).map Prod.fst).nodup_iff.2 h

/-! ## Storing what the encoder wrote -/

theorem storeElems_strings (field : String) (xs : List GoString) (old : List GoString)
    (err : Option GoError) :
    storeElems field (xs.map .str) old err = (xs, err) := by
  induction xs generalizing old err with
  | nil => rfl
  | cons x xs ih =>
    simp only [List.map_cons, storeElems, storeString]
    rw [ih]

theorem storeSlice_sliceValue (field : String) (xs cur : Option (List GoString))
    (err : Option GoError) :
    storeSlice field (sliceValue xs) cur err = (xs, err) := by
  cases xs with
  | none => rfl
  | some l => simp only [sliceValue, storeSlice, storeElems_strings]

theorem mapInsert_new (k v : GoString) (m : List (GoString × GoString)) (h : k ∉ entryKeys m) :
    mapInsert k v m = m ++ [(k, v)] := by
  induction m with
  | nil => rfl
  | cons e es ih =>
    simp only [entryKeys, List.map_cons, List.mem_cons, not_or] at h
    unfold mapInsert
    rw [if_neg (fun he => h.1 he.symm)]
    rw [ih h.2]
    rfl

theorem storeEntries_strings (field : String) (l m : List (GoString × GoString))
    (err : Option GoError) (h : (entryKeys (m ++ l)).Nodup) :
    storeEntries field (l.map fun e => (e.1, JValue.str e.2)) m err = (m ++ l, err) := by
  induction l generalizing m with
  | nil => simp [storeEntries]
  | cons e es ih =>
    simp only [List.map_cons, storeEntries, storeString]
    have hk : e.1 ∉ entryKeys m := by
      simp only [entryKeys, List.map_append, List.map_cons] at h
      have := (List.nodup_append.1 h).2.2
      intro hm
      exact this hm (List.mem_cons_self _ _)
    rw [mapInsert_new _ _ _ hk]
    have h2 : (entryKeys ((m ++ [(e.1, e.2)]) ++ es)).Nodup := by
      simpa using h
    rw [ih _ h2]
    simp

theorem storeMap_mapValue (field : String) (es : Option (List (GoString × GoString)))
    (err : Option GoError) (h : (entryKeys (es.getD [])).Nodup) :
    storeMap field (mapValue es) none err = (es.map sortEntries, err) := by
  cases es with
  | none => rfl
  | some l =>
    simp only [mapValue, storeMap, Option.getD_none, Option.map_some']
    rw [storeEntries_strings field (sortEntries l) [] err
      (by simpa using sortEntries_keys_nodup l h)]
    simp

/-! ## Decoding the encoding of a `Page` -/

theorem storeInt_inRange (field : String) (n cur : Int) (err : Option GoError)
    (h1 : -9223372036854775808 ≤ n) (h2 : n ≤ 9223372036854775807) :
    storeInt field (.num n) cur err = (n, err) := by
  simp only [storeInt]
  rw [if_pos ⟨h1, h2⟩]

theorem matchField_source_id : matchField sourceFields (lit "id") = some "id" := by decide
theorem matchField_source_revision : matchField sourceFields (lit "revision") = some "revision" := by
  decide
theorem matchField_source_tid : matchField sourceFields (lit "tid") = some "tid" := by decide
theorem matchField_source_authority : matchField sourceFields (lit "authority") = some "authority" := by
  decide

theorem storeSource_marshalSource (s cur : Source) (err : Option GoError) (h : s.wf) :
    storeSource (marshalSource s) cur err = (s, err) := by
  obtain ⟨h1, h2, h3, h4⟩ := h
  simp only [storeSource, marshalSource, List.foldl, storeSourceField, matchField_source_id,
    matchField_source_revision, matchField_source_tid, matchField_source_authority,
    storeInt_inRange _ _ _ _ h1 h2, storeInt_inRange _ _ _ _ h3 h4, storeString]
  simp

theorem matchField_page_identifier : matchField pageFields (lit "identifier") = some "identifier" := by
  decide
theorem matchField_page_source : matchField pageFields (lit "_source") = some "_source" := by decide
theorem matchField_page_name : matchField pageFields (lit "name") = some "name" := by decide
theorem matchField_page_url : matchField pageFields (lit "url") = some "url" := by decide
theorem matchField_page_dateModified :
    matchField pageFields (lit "dateModified") = some "dateModified" := by decide
theorem matchField_page_hasPart : matchField pageFields (lit "hasPart") = some "hasPart" := by decide
theorem matchField_page_about : matchField pageFields (lit "about") = some "about" := by decide

theorem storePageField_identifier (p : Page) (err : Option GoError) (v : JValue) :
    storePageField (p, err) (lit "identifier", v)
      = ({ p with ID := (storeString "identifier" v p.ID err).1 },
          (storeString "identifier" v p.ID err).2) := by
  simp [storePageField, matchField_page_identifier]

theorem storePageField_source (p : Page) (err : Option GoError) (v : JValue) :
    storePageField (p, err) (lit "_source", v)
      = ({ p with Source := (storeSource v p.Source err).1 }, (storeSource v p.Source err).2) := by
  simp [storePageField, matchField_page_source]

theorem storePageField_name (p : Page) (err : Option GoError) (v : JValue) :
    storePageField (p, err) (lit "name", v)
      = ({ p with Name := (storeString "name" v p.Name err).1 },
          (storeString "name" v p.Name err).2) := by
  simp [storePageField, matchField_page_name]

theorem storePageField_url (p : Page) (err : Option GoError) (v : JValue) :
    storePageField (p, err) (lit "url", v)
      = ({ p with URL := (storeString "url" v p.URL err).1 },
          (storeString "url" v p.URL err).2) := by
  simp [storePageField, matchField_page_url]

theorem storePageField_dateModified (p : Page) (err : Option GoError) (v : JValue) :
    storePageField (p, err) (lit "dateModified", v)
      = ({ p with DateModified := (storeJSONTime "dateModified" v p.DateModified err).1 },
          (storeJSONTime "dateModified" v p.DateModified err).2) := by
  simp [storePageField, matchField_page_dateModified]

theorem storePageField_hasPart (p : Page) (err : Option GoError) (v : JValue) :
    storePageField (p, err) (lit "hasPart", v)
      = ({ p with HasPart := (storeSlice "hasPart" v p.HasPart err).1 },
          (storeSlice "hasPart" v p.HasPart err).2) := by
  simp [storePageField, matchField_page_hasPart]

theorem storePageField_about (p : Page) (err : Option GoError) (v : JValue) :
    storePageField (p, err) (lit "about", v)
      = ({ p with About := (storeMap "about" v p.About err).1 },
          (storeMap "about" v p.About err).2) := by
  simp [storePageField, matchField_page_about]

/-- Decoding the encoding of a page into a fresh `Page` fills in every field but `DateModified`,
which stays at the zero time, and reports the type error of that field. -/
theorem unmarshalPage_marshal (p : Page) (h : p.wf) :
    unmarshalPage (.obj [(lit "identifier", .str p.ID), (lit "_source", marshalSource p.Source),
      (lit "name", .str p.Name), (lit "url", .str p.URL),
      (lit "dateModified", .str (utf8 (formatRFC3339 p.DateModified))),
      (lit "hasPart", sliceValue p.HasPart), (lit "about", mapValue p.About)]) zeroPage
    = ({ ID := p.ID, Source := p.Source, Name := p.Name, URL := p.URL, DateModified := zeroTime,
         HasPart := p.HasPart, About := p.About.map sortEntries },
       some (.unmarshalType "string" "common.JSONTime" "dateModified")) := by
  obtain ⟨hs, hm⟩ := h
  simp only [unmarshalPage, List.foldl, storePageField_identifier, storePageField_source,
    storePageField_name, storePageField_url, storePageField_dateModified,
    storePageField_hasPart, storePageField_about,
    storeString, storeSource_marshalSource _ _ _ hs, storeJSONTime, storeSlice_sliceValue,
    saveError, JValue.kind]
  simp only [zeroPage]
  rw [storeMap_mapValue _ _ _ hm]

/-! ## UTF-8: decoding what was encoded -/

theorem val_ofNat (n : Nat) : (Fin.ofNat n : Byte).val = n % 256 := rfl

theorem char_valid_nat (c : Char) :
    c.toNat < 55296 ∨ (57343 < c.toNat ∧ c.toNat < 1114112) := by
  have := c.valid
  simpa [Char.toNat, UInt32.isValidChar, Nat.isValidChar] using this

theorem decodeRune_encodeRune_nat (r : Nat) (hv : r < 55296 ∨ (57343 < r ∧ r < 1114112))
    (rest : List Byte) :
    decodeRune (encodeRune r ++ rest) = (r, (encodeRune r).length) := by
  unfold encodeRune
  by_cases h1 : r < 128
  · have a : r % 256 = r := by omega
    simp [h1, decodeRune, val_ofNat, a]
  · rw [if_neg h1]
    by_cases h2 : r < 2048
    · have a1 : (192 + r / 64) % 256 = 192 + r / 64 := by omega
      have a2 : (128 + r % 64) % 256 = 128 + r % 64 := by omega
      have b1 : ¬ (192 + r / 64 < 128) := by omega
      have b2 : ¬ (192 + r / 64 < 194 ∨ 244 < 192 + r / 64) := by omega
      have b3 : 192 + r / 64 < 224 := by omega
      have b4 : isCont (128 + r % 64) = true := by simp [isCont]; omega
      have b5 : (192 + r / 64) % 32 * 64 + (128 + r % 64) % 64 = r := by omega
      simp only [h2, if_true, List.cons_append, List.nil_append, decodeRune, decode2, val_ofNat,
        a1, a2, b1, b2, b3, b4, b5, if_false, List.length_cons, List.length_nil]
    · rw [if_neg h2]
      have h3 : ¬ (r > 1114111 ∨ (55296 ≤ r ∧ r ≤ 57343)) := by omega
      rw [if_neg h3]
      by_cases h4 : r < 65536
      · have a1 : (224 + r / 4096) % 256 = 224 + r / 4096 := by omega
        have a2 : (128 + r / 64 % 64) % 256 = 128 + r / 64 % 64 := by omega
        have a3 : (128 + r % 64) % 256 = 128 + r % 64 := by omega
        have b1 : ¬ (224 + r / 4096 < 128) := by omega
        have b2 : ¬ (224 + r / 4096 < 194 ∨ 244 < 224 + r / 4096) := by omega
        have b3 : ¬ (224 + r / 4096 < 224) := by omega
        have b3' : 224 + r / 4096 < 240 := by omega
        have b4 : isCont (128 + r % 64) = true := by simp [isCont]; omega
        have b5 : (224 + r / 4096) % 16 * 4096 + (128 + r / 64 % 64) % 64 * 64
            + (128 + r % 64) % 64 = r := by omega
        have b6 : (if 224 + r / 4096 = 224 then 160 else 128) ≤ 128 + r / 64 % 64 := by
          split_ifs <;> omega
        have b7 : 128 + r / 64 % 64 ≤ (if 224 + r / 4096 = 237 then 159 else 191) := by
          split_ifs <;> omega
        simp only [h4, if_true, List.cons_append, List.nil_append, decodeRune, decode3, val_ofNat,
          a1, a2, a3, b1, b2, b3, b3', if_false, b4, b5, b6, b7, and_self, List.length_cons,
          List.length_nil]
      · have a1 : (240 + r / 262144) % 256 = 240 + r / 262144 := by omega
        have a2 : (128 + r / 4096 % 64) % 256 = 128 + r / 4096 % 64 := by omega
        have a3 : (128 + r / 64 % 64) % 256 = 128 + r / 64 % 64 := by omega
        have a4 : (128 + r % 64) % 256 = 128 + r % 64 := by omega
        have b1 : ¬ (240 + r / 262144 < 128) := by omega
        have b2 : ¬ (240 + r / 262144 < 194 ∨ 244 < 240 + r / 262144) := by omega
        have b3 : ¬ (240 + r / 262144 < 224) := by omega
        have b3' : ¬ (240 + r / 262144 < 240) := by omega
        have b4 : isCont (128 + r % 64) = true := by simp [isCont]; omega
        have b4' : isCont (128 + r / 64 % 64) = true := by simp [isCont]; omega
        have b5 : (240 + r / 262144) % 8 * 262144 + (128 + r / 4096 % 64) % 64 * 4096
            + (128 + r / 64 % 64) % 64 * 64 + (128 + r % 64) % 64 = r := by omega
        have b6 : (if 240 + r / 262144 = 240 then 144 else 128) ≤ 128 + r / 4096 % 64 := by
          split_ifs <;> omega
        have b7 : 128 + r / 4096 % 64 ≤ (if 240 + r / 262144 = 244 then 143 else 191) := by
          split_ifs <;> omega
        simp only [h4, if_false, List.cons_append, List.nil_append, decodeRune, decode4, val_ofNat,
          a1, a2, a3, a4, b1, b2, b3, b3', b4, b4', b5, b6, b7, and_self, if_true,
          List.length_cons, List.length_nil]

/-- The encoding of a rune from U+0080 on starts with a byte from `0x80` on and has at least two
bytes. -/
theorem encodeRune_head (r : Nat) (h : 128 ≤ r) :
    ∃ b t, encodeRune r = b :: t ∧ 128 ≤ b.val ∧ 2 ≤ (encodeRune r).length := by
  unfold encodeRune
  rw [if_neg (by omega)]
  by_cases h2 : r < 2048
  · rw [if_pos h2]
    exact ⟨_, _, rfl, by rw [val_ofNat]; omega, by simp⟩
  · rw [if_neg h2]
    by_cases h3 : r > 1114111 ∨ (55296 ≤ r ∧ r ≤ 57343)
    · rw [if_pos h3]
      exact ⟨_, _, rfl, by decide, by simp⟩
    · rw [if_neg h3]
      by_cases h4 : r < 65536
      · rw [if_pos h4]
        exact ⟨_, _, rfl, by rw [val_ofNat]; omega, by simp⟩
      · rw [if_neg h4]
        exact ⟨_, _, rfl, by rw [val_ofNat]; omega, by simp⟩

theorem encodeRune_ascii (r : Nat) (h : r < 128) : encodeRune r = [Fin.ofNat r] := by
  unfold encodeRune
  rw [if_pos h]

theorem encodeRune_length_pos (r : Nat) : 1 ≤ (encodeRune r).length := by
  unfold encodeRune
  split_ifs <;> simp

/-! ## String literals: reading what the encoder wrote -/

theorem hexValue_hexByte : ∀ d : Fin 16, hexValue (hexByte d.val) = some d.val := by decide

theorem escapeLoop_char (fuel : Nat) (c : Char) (s : GoString) :
    escapeLoop (fuel + 1) (encodeRune c.toNat ++ s) = escChar c ++ escapeLoop fuel s := by
  unfold escChar
  by_cases h : c.toNat < 128
  · rw [if_pos h, encodeRune_ascii _ h]
    have hv : (Fin.ofNat c.toNat : Byte).val < 128 := by rw [val_ofNat]; omega
    simp only [List.singleton_append, escapeLoop, hv, if_true]
    rfl
  · rw [if_neg h]
    obtain ⟨b, t, hb, hb128, hlen⟩ := encodeRune_head c.toNat (by omega)
    have hd := decodeRune_encodeRune_nat c.toNat (char_valid_nat c) s
    have hnot : ¬ b.val < 128 := by omega
    have hdrop : List.drop (encodeRune c.toNat).length (encodeRune c.toNat ++ s) = s := by
      simp
    have htake : List.take (encodeRune c.toNat).length (encodeRune c.toNat ++ s)
        = encodeRune c.toNat := by
      simp
    rw [hb] at hd hdrop htake hlen ⊢
    simp only [List.cons_append] at hd hdrop htake ⊢
    simp only [escapeLoop, hnot, if_false, hd]
    rw [if_neg (by omega)]
    simp only [hdrop, htake]
    by_cases h2 : c.toNat = 8232 ∨ c.toNat = 8233
    · rw [if_pos h2, if_pos h2]
    · rw [if_neg h2, if_neg h2]

theorem utf8_length (cs : List Char) : cs.length ≤ (utf8 cs).length := by
  induction cs with
  | nil => simp [utf8]
  | cons c cs ih =>
    have := encodeRune_length_pos c.toNat
    simp only [utf8, List.length_cons, List.length_append]
    omega

theorem escapeLoop_utf8 (cs : List Char) : ∀ fuel, cs.length ≤ fuel →
    escapeLoop fuel (utf8 cs) = escText cs := by
  induction cs with
  | nil => intro fuel _; cases fuel <;> simp [utf8, escapeLoop, escText]
  | cons c cs ih =>
    intro fuel hf
    cases fuel with
    | zero => simp at hf
    | succ f =>
      simp only [utf8, escText]
      rw [escapeLoop_char, ih f (by simpa using hf)]

/-- A valid UTF-8 string is written character by character. -/
theorem quoteString_utf8 (cs : List Char) :
    quoteString (utf8 cs) = 34 :: escText cs ++ [34] := by
  unfold quoteString
  rw [escapeLoop_utf8 cs _ (utf8_length cs)]

theorem readString_ascii (fuel : Nat) (b : Byte) (hb : b.val < 128) (more : List Byte) :
    readString (fuel + 1) (escapeASCII b ++ more)
      = (readString fuel more).map fun p => (b :: p.1, p.2) := by
  unfold escapeASCII
  by_cases h1 : b = 92 ∨ b = 34
  · rw [if_pos h1]
    rcases h1 with h1 | h1 <;> subst h1 <;>
      cases hr : readString fuel more <;> simp [readString, simpleEscape, hr]
  · rw [if_neg h1]
    by_cases h2 : b = 10
    · subst h2
      cases hr : readString fuel more <;> simp [readString, simpleEscape, hr]
    · rw [if_neg h2]
      by_cases h3 : b = 13
      · subst h3
        cases hr : readString fuel more <;> simp [readString, simpleEscape, hr]
      · rw [if_neg h3]
        by_cases h4 : b = 9
        · subst h4
          cases hr : readString fuel more <;> simp [readString, simpleEscape, hr]
        · rw [if_neg h4]
          by_cases h5 : b.val < 32 ∨ b = 60 ∨ b = 62 ∨ b = 38
          · rw [if_pos h5]
            have hlt : b.val < 64 := by
              rcases h5 with h5 | h5 | h5 | h5
              · omega
              · subst h5; decide
              · subst h5; decide
              · subst h5; decide
            have x1 := hexValue_hexByte ⟨b.val / 16, by omega⟩
            have x2 := hexValue_hexByte ⟨b.val % 16, by omega⟩
            simp only at x1 x2
            have x0 : hexValue 48 = some 0 := by decide
            have hv : b.val / 16 * 16 + b.val % 16 = b.val := by omega
            have hns : ¬ (55296 ≤ b.val ∧ b.val < 57344) := by omega
            have he : encodeRune b.val = [b] := by
              rw [encodeRune_ascii _ hb]
              congr 1
              apply Fin.ext
              rw [val_ofNat]; omega
            cases hr : readString fuel more <;>
              simp [readString, readHex4, x0, x1, x2, hv, escapedRune, hns, he, hr]
          · rw [if_neg h5]
            have n1 : ¬ b = 34 := fun h => h1 (Or.inr h)
            have n2 : ¬ b = 92 := fun h => h1 (Or.inl h)
            have n3 : ¬ b.val < 32 := fun h => h5 (Or.inl h)
            cases hr : readString fuel more <;> simp [readString, n1, n2, n3, hb, hr]

theorem readString_char (fuel : Nat) (c : Char) (more : List Byte) :
    readString (fuel + 1) (escChar c ++ more)
      = (readString fuel more).map fun p => (encodeRune c.toNat ++ p.1, p.2) := by
  unfold escChar
  by_cases h : c.toNat < 128
  · rw [if_pos h, encodeRune_ascii _ h]
    have hv : (Fin.ofNat c.toNat : Byte).val < 128 := by rw [val_ofNat]; omega
    rw [readString_ascii fuel _ hv]
    rfl
  · rw [if_neg h]
    by_cases h2 : c.toNat = 8232 ∨ c.toNat = 8233
    · rw [if_pos h2]
      have k50 : hexValue 50 = some 2 := by decide
      have k48 : hexValue 48 = some 0 := by decide
      have k8 : hexValue (hexByte (8232 % 16)) = some 8 := by decide
      have k9 : hexValue (hexByte (8233 % 16)) = some 9 := by decide
      rcases h2 with h2 | h2 <;> rw [h2] <;>
        cases hr : readString fuel more <;>
        simp [readString, readHex4, k50, k48, k8, k9, escapedRune, hr]
    · rw [if_neg h2]
      obtain ⟨b, t, hb, hb128, hlen⟩ := encodeRune_head c.toNat (by omega)
      have hd := decodeRune_encodeRune_nat c.toNat (char_valid_nat c) more
      have hdrop : List.drop (encodeRune c.toNat).length (encodeRune c.toNat ++ more) = more := by
        simp
      rw [hb] at hd hdrop
      rw [hb]
      simp only [List.cons_append] at hd hdrop ⊢
      have n1 : ¬ b = 34 := by intro e; rw [e] at hb128; revert hb128; decide
      have n2 : ¬ b = 92 := by intro e; rw [e] at hb128; revert hb128; decide
      have n3 : ¬ b.val < 32 := by omega
      have n4 : ¬ b.val < 128 := by omega
      cases hr : readString fuel more <;>
        simp [readString, n1, n2, n3, n4, hd, hdrop, hr, hb]

theorem readString_escText (cs : List Char) (rest : List Byte) : ∀ fuel, cs.length + 1 ≤ fuel →
    readString fuel (escText cs ++ 34 :: rest) = some (utf8 cs, rest) := by
  induction cs with
  | nil =>
    intro fuel hf
    cases fuel with
    | zero => simp at hf
    | succ f => simp [escText, readString, utf8]
  | cons c cs ih =>
    intro fuel hf
    cases fuel with
    | zero => simp at hf
    | succ f =>
      simp only [escText, List.append_assoc]
      rw [readString_char, ih f (by simpa using hf)]
      simp [utf8]

theorem escChar_length_pos (c : Char) : 1 ≤ (escChar c).length := by
  unfold escChar escapeASCII
  have := encodeRune_length_pos c.toNat
  split_ifs <;> simp; omega

theorem escText_length (cs : List Char) : cs.length ≤ (escText cs).length := by
  induction cs with
  | nil => simp [escText]
  | cons c cs ih =>
    have := escChar_length_pos c
    simp only [escText, List.length_cons, List.length_append]
    omega

/-- Reading the literal the encoder wrote for a valid UTF-8 string gives the string back. -/
theorem readString_quoteString (s : GoString) (hs : s.valid) (rest : List Byte) :
    ∃ body, quoteString s = 34 :: body
      ∧ readString (body ++ rest).length (body ++ rest) = some (s, rest) := by
  obtain ⟨cs, rfl⟩ := hs
  refine ⟨escText cs ++ [34], by rw [quoteString_utf8]; simp, ?_⟩
  have hl := escText_length cs
  have e : escText cs ++ [34] ++ rest = escText cs ++ 34 :: rest := by simp
  rw [e]
  exact readString_escText cs rest _ (by simp; omega)

/-! ## Number literals: reading what the encoder wrote -/

theorem digitsValue_snoc (ds : List Byte) (d : Byte) :
    digitsValue (ds ++ [d]) = digitsValue ds * 10 + (d.val - 48) := by
  simp [digitsValue, List.foldl_append]

theorem digit_byte (u : Nat) (h : u < 10) :
    isDigitByte (Fin.ofNat (48 + u)) = true ∧ (Fin.ofNat (48 + u) : Byte).val - 48 = u
      ∧ (1 ≤ u → (Fin.ofNat (48 + u) : Byte) ≠ 48) ∧ (u = 0 → (Fin.ofNat (48 + u) : Byte) = 48) := by
  interval_cases u <;> decide

/-- The digits written for `u`: all decimal digits, spelling `u`, with no leading zero unless
`u` is zero. -/
theorem decimalBytesRev_spec (fuel : Nat) : ∀ u, u < 10 ^ fuel → 1 ≤ fuel →
    ∃ h tl, (decimalBytesRev fuel u).reverse = h :: tl ∧ isDigitByte h = true
      ∧ (∀ b ∈ tl, isDigitByte b = true) ∧ digitsValue (h :: tl) = u
      ∧ (1 ≤ u → h ≠ 48) ∧ (u = 0 → tl = [] ∧ h = 48) := by
  induction fuel with
  | zero => intro u _ hf; omega
  | succ f ih =>
    intro u hu _
    unfold decimalBytesRev
    by_cases h10 : u < 10
    · rw [if_pos h10]
      obtain ⟨d1, d2, d3, d4⟩ := digit_byte u h10
      refine ⟨_, [], rfl, d1, by simp, ?_, d3, fun h0 => ⟨rfl, d4 h0⟩⟩
      simp [digitsValue, d2]
    · rw [if_neg h10]
      have hf1 : 1 ≤ f := by
        rcases Nat.eq_zero_or_pos f with h0 | h0
        · subst h0; simp at hu; omega
        · exact h0
      have hu' : u / 10 < 10 ^ f := by
        rw [pow_succ] at hu
        omega
      obtain ⟨h, tl, e, g1, g2, g3, g4, _⟩ := ih (u / 10) hu' hf1
      obtain ⟨d1, d2, _, _⟩ := digit_byte (u % 10) (by omega)
      refine ⟨h, tl ++ [Fin.ofNat (48 + u % 10)], ?_, g1, ?_, ?_, fun _ => g4 (by omega), ?_⟩
      · rw [List.reverse_cons, e]; rfl
      · intro b hb
        rcases List.mem_append.1 hb with hb | hb
        · exact g2 b hb
        · simp only [List.mem_singleton] at hb
          rw [hb]; exact d1
      · have : h :: (tl ++ [Fin.ofNat (48 + u % 10)]) = (h :: tl) ++ [Fin.ofNat (48 + u % 10)] := rfl
        rw [this, digitsValue_snoc, g3, d2]
        omega
      · intro h0; omega

theorem takeDigits_digits (ds rest : List Byte) (hd : ∀ b ∈ ds, isDigitByte b = true)
    (hr : rest = [] ∨ ∃ c t, rest = c :: t ∧ isDigitByte c = false) :
    takeDigits (ds ++ rest) = (ds, rest) := by
  induction ds with
  | nil =>
    rcases hr with rfl | ⟨c, t, rfl, hc⟩
    · rfl
    · simp [takeDigits, hc]
  | cons d ds ih =>
    have h1 := hd d (List.mem_cons_self _ _)
    have h2 := ih (fun b hb => hd b (List.mem_cons_of_mem _ hb))
    simp [takeDigits, h1, h2]

theorem delimited_head (rest : List Byte) (h : delimited rest) :
    (rest = [] ∨ ∃ c t, rest = c :: t ∧ isDigitByte c = false)
    ∧ readFraction rest = some ([], rest) ∧ readExponent rest = some ([], rest) := by
  rcases h with rfl | ⟨t, rfl | rfl | rfl⟩
  · exact ⟨Or.inl rfl, rfl, rfl⟩
  · exact ⟨Or.inr ⟨_, _, rfl, by decide⟩, rfl, by simp [readExponent]⟩
  · exact ⟨Or.inr ⟨_, _, rfl, by decide⟩, rfl, by simp [readExponent]⟩
  · exact ⟨Or.inr ⟨_, _, rfl, by decide⟩, rfl, by simp [readExponent]⟩

theorem readIntPart_digits (h : Byte) (tl rest : List Byte) (g1 : isDigitByte h = true)
    (g2 : ∀ b ∈ tl, isDigitByte b = true) (g0 : h = 48 → tl = [])
    (hr : rest = [] ∨ ∃ c t, rest = c :: t ∧ isDigitByte c = false) :
    readIntPart (h :: tl ++ rest) = some (h :: tl, rest) := by
  simp only [List.cons_append, readIntPart]
  by_cases h0 : h = 48
  · rw [if_pos h0, g0 h0, h0]; rfl
  · rw [if_neg h0, if_pos g1]
    have := takeDigits_digits (h :: tl) rest (by
      intro b hb
      rcases List.mem_cons.1 hb with hb | hb
      · rw [hb]; exact g1
      · exact g2 b hb) hr
    simp only [List.cons_append] at this
    rw [this]

theorem digit_not_minus : ∀ h : Byte, isDigitByte h = true → h ≠ 45 := by decide

theorem readNumber_intText (n : Int) (hn : n.natAbs < 100000000000000000000)
    (rest : List Byte) (hd : delimited rest) :
    readNumber (intText n ++ rest) = some (.num n, rest) := by
  obtain ⟨h, tl, e, g1, g2, g3, g4, g5⟩ := decimalBytesRev_spec 20 n.natAbs (by norm_num; exact hn)
    (by norm_num)
  obtain ⟨r1, r2, r3⟩ := delimited_head rest hd
  have g0 : h = 48 → tl = [] := by
    intro h48
    by_cases hz : n.natAbs = 0
    · exact (g5 hz).1
    · exact absurd h48 (g4 (by omega))
  have hi := readIntPart_digits h tl rest g1 g2 g0 r1
  unfold intText
  rw [e]
  by_cases hneg : n < 0
  · rw [if_pos hneg]
    simp only [List.cons_append, List.nil_append, readNumber, List.head?_cons, List.tail_cons,
      beq_self_eq_true, if_true]
    simp only [List.cons_append] at hi
    rw [hi]
    simp only [r2, r3, and_self, if_true, g3]
    have : -(n.natAbs : Int) = n := by omega
    rw [this]
  · rw [if_neg hneg]
    have hne : (some h == some (45 : Byte)) = false := by
      simp [digit_not_minus h g1]
    simp only [List.nil_append, List.cons_append, readNumber, List.head?_cons, hne]
    simp only [List.cons_append] at hi
    simp only [Bool.false_eq_true, if_false, hi, r2, r3, and_self, if_true, g3]
    have : (n.natAbs : Int) = n := by omega
    rw [this]

theorem intText_head (n : Int) (hn : n.natAbs < 100000000000000000000) :
    ∃ h tl, intText n = h :: tl ∧ (h = 45 ∨ isDigitByte h = true) := by
  obtain ⟨h, tl, e, g1, _⟩ := decimalBytesRev_spec 20 n.natAbs (by norm_num; exact hn)
    (by norm_num)
  unfold intText
  rw [e]
  by_cases hneg : n < 0
  · rw [if_pos hneg]; exact ⟨45, _, rfl, Or.inl rfl⟩
  · rw [if_neg hneg]; exact ⟨h, tl, rfl, Or.inr g1⟩

theorem number_head : ∀ h : Byte, (h = 45 ∨ isDigitByte h = true) →
    h ≠ 34 ∧ h ≠ 123 ∧ h ≠ 91 ∧ h ≠ 116 ∧ h ≠ 102 ∧ h ≠ 110 ∧ isSpace h = false ∧ h ≠ 93
      ∧ h ≠ 125 := by
  decide

/-! ## Whole values: reading what the encoder wrote -/

theorem skipSpace_cons (b : Byte) (t : List Byte) (h : isSpace b = false) :
    skipSpace (b :: t) = b :: t := by
  simp [skipSpace, h]

theorem readValue_null (fuel : Nat) (rest : List Byte) :
    readValue (fuel + 1) (JValue.null.render ++ rest) = some (.null, rest) := by
  simp [JValue.render, readValue, readWord]

theorem readValue_bool (fuel : Nat) (b : Bool) (rest : List Byte) :
    readValue (fuel + 1) ((JValue.bool b).render ++ rest) = some (.bool b, rest) := by
  cases b <;> simp [JValue.render, readValue, readWord]

theorem readValue_num (fuel : Nat) (n : Int) (hn : n.natAbs < 100000000000000000000)
    (rest : List Byte) (hd : delimited rest) :
    readValue (fuel + 1) ((JValue.num n).render ++ rest) = some (.num n, rest) := by
  have hr := readNumber_intText n hn rest hd
  obtain ⟨h, tl, e, hh⟩ := intText_head n hn
  obtain ⟨n1, n2, n3, n4, n5, n6, _⟩ := number_head h hh
  simp only [JValue.render]
  rw [e] at hr ⊢
  simp only [List.cons_append] at hr ⊢
  simp only [readValue, n1, n2, n3, n4, n5, n6, if_false, hr]

theorem readValue_str (fuel : Nat) (s : GoString) (hs : s.valid) (rest : List Byte) :
    readValue (fuel + 1) ((JValue.str s).render ++ rest) = some (.str s, rest) := by
  obtain ⟨body, e, hr⟩ := readString_quoteString s hs rest
  simp only [JValue.render]
  rw [e]
  simp only [List.cons_append, readValue, if_true, hr]

theorem readValue_arr_nil (fuel : Nat) (rest : List Byte) :
    readValue (fuel + 1) (91 :: 93 :: rest) = some (.arr [], rest) := by
  simp [readValue, skipSpace, isSpace]

theorem readValue_obj_nil (fuel : Nat) (rest : List Byte) :
    readValue (fuel + 1) (123 :: 125 :: rest) = some (.obj [], rest) := by
  simp [readValue, skipSpace, isSpace]

theorem readValue_arr_cons (fuel : Nat) (c : Byte) (u : List Byte) (h1 : isSpace c = false)
    (h2 : c ≠ 93) :
    readValue (fuel + 1) (91 :: c :: u)
      = (readElems fuel (c :: u)).map fun p => (.arr p.1, p.2) := by
  cases hr : readElems fuel (c :: u) <;>
    simp [readValue, skipSpace_cons c u h1, h2, hr]

theorem readValue_obj_cons (fuel : Nat) (c : Byte) (u : List Byte) (h1 : isSpace c = false)
    (h2 : c ≠ 125) :
    readValue (fuel + 1) (123 :: c :: u)
      = (readMembers fuel (c :: u)).map fun p => (.obj p.1, p.2) := by
  cases hr : readMembers fuel (c :: u) <;>
    simp [readValue, skipSpace_cons c u h1, h2, hr]

theorem readElems_last (fuel : Nat) (s : List Byte) (x : JValue) (rest : List Byte)
    (h : readValue fuel s = some (x, 93 :: rest)) :
    readElems (fuel + 1) s = some ([x], rest) := by
  simp [readElems, h, skipSpace, isSpace]

theorem readElems_more (fuel : Nat) (s : List Byte) (x : JValue) (c : Byte) (u : List Byte)
    (hc : isSpace c = false) (h : readValue fuel s = some (x, 44 :: c :: u)) :
    readElems (fuel + 1) s = (readElems fuel (c :: u)).map fun p => (x :: p.1, p.2) := by
  have e1 : skipSpace (44 :: c :: u) = 44 :: c :: u := skipSpace_cons _ _ (by decide)
  cases hr : readElems fuel (c :: u) <;>
    simp [readElems, h, e1, skipSpace_cons c u hc, hr]

theorem readMembers_last (fuel : Nat) (k : GoString) (hk : k.valid) (s : List Byte)
    (c : Byte) (u : List Byte) (hc : isSpace c = false) (v : JValue) (rest : List Byte)
    (h : readValue fuel (c :: u) = some (v, 125 :: rest))
    (hs : s = quoteString k ++ 58 :: c :: u) :
    readMembers (fuel + 1) s = some ([(k, v)], rest) := by
  obtain ⟨body, e, hr⟩ := readString_quoteString k hk (58 :: c :: u)
  rw [hs, e]
  have e1 : skipSpace (58 :: c :: u) = 58 :: c :: u := skipSpace_cons _ _ (by decide)
  have e2 : skipSpace (125 :: rest) = 125 :: rest := skipSpace_cons _ _ (by decide)
  rw [List.cons_append]
  generalize body ++ 58 :: c :: u = t at hr ⊢
  simp only [readMembers, if_true, hr, e1, skipSpace_cons c u hc, h, e2]

theorem readMembers_more (fuel : Nat) (k : GoString) (hk : k.valid) (s : List Byte)
    (c : Byte) (u : List Byte) (hc : isSpace c = false) (v : JValue) (d : Byte) (w : List Byte)
    (hd : isSpace d = false)
    (h : readValue fuel (c :: u) = some (v, 44 :: d :: w))
    (hs : s = quoteString k ++ 58 :: c :: u) :
    readMembers (fuel + 1) s = (readMembers fuel (d :: w)).map fun p => ((k, v) :: p.1, p.2) := by
  obtain ⟨body, e, hr⟩ := readString_quoteString k hk (58 :: c :: u)
  rw [hs, e]
  have e1 : skipSpace (58 :: c :: u) = 58 :: c :: u := skipSpace_cons _ _ (by decide)
  have e2 : skipSpace (44 :: d :: w) = 44 :: d :: w := skipSpace_cons _ _ (by decide)
  have n1 : ¬ ((44 : Byte) = 125) := by decide
  rw [List.cons_append]
  generalize body ++ 58 :: c :: u = t at hr ⊢
  cases hm : readMembers fuel (d :: w) <;>
    simp only [readMembers, if_true, hr, e1, skipSpace_cons c u hc, h, e2,
      skipSpace_cons d w hd, hm, n1, if_false, Option.map_none', Option.map_some']

theorem quoteString_head (k : GoString) : ∃ tl, quoteString k = 34 :: tl :=
  ⟨_, rfl⟩

/-- The text of a plain value starts with a byte that is no white space and closes nothing. -/
theorem render_head (v : JValue) (hv : v.plain) :
    ∃ h tl, v.render = h :: tl ∧ isSpace h = false ∧ h ≠ 93 ∧ h ≠ 125 := by
  cases v with
  | null => exact ⟨_, _, rfl, by decide, by decide, by decide⟩
  | bool b => cases b <;> exact ⟨_, _, rfl, by decide, by decide, by decide⟩
  | num n =>
    obtain ⟨h, tl, e, hh⟩ := intText_head n (by simpa [JValue.plain] using hv)
    obtain ⟨_, _, _, _, _, _, n7, n8, n9⟩ := number_head h hh
    exact ⟨h, tl, by simp [JValue.render, e], n7, n8, n9⟩
  | real t => simp [JValue.plain] at hv
  | str s => exact ⟨_, _, rfl, by decide, by decide, by decide⟩
  | arr xs => exact ⟨_, _, rfl, by decide, by decide, by decide⟩
  | obj kvs => exact ⟨_, _, rfl, by decide, by decide, by decide⟩

theorem delimited_close_arr (rest : List Byte) : delimited (93 :: rest) :=
  Or.inr ⟨rest, Or.inr (Or.inl rfl)⟩

theorem delimited_close_obj (rest : List Byte) : delimited (125 :: rest) :=
  Or.inr ⟨rest, Or.inr (Or.inr rfl)⟩

theorem delimited_comma (rest : List Byte) : delimited (44 :: rest) :=
  Or.inr ⟨rest, Or.inl rfl⟩

mutual
/-- Reading the text the encoder wrote for a plain value gives the value back, and leaves what
follows it. -/
theorem readValue_render : (v : JValue) → v.plain → ∀ fuel rest, v.render.length ≤ fuel →
    delimited rest → readValue fuel (v.render ++ rest) = some (v, rest)
  | .null, _, fuel, rest, hf, _ => by
    cases fuel with
    | zero => simp [JValue.render] at hf
    | succ f => exact readValue_null f rest
  | .bool b, _, fuel, rest, hf, _ => by
    cases fuel with
    | zero => cases b <;> simp [JValue.render] at hf
    | succ f => exact readValue_bool f b rest
  | .num n, hv, fuel, rest, hf, hd => by
    have hn : n.natAbs < 100000000000000000000 := by simpa [JValue.plain] using hv
    cases fuel with
    | zero =>
      obtain ⟨h, tl, e, _⟩ := intText_head n hn
      simp [JValue.render, e] at hf
    | succ f => exact readValue_num f n hn rest hd
  | .real _, hv, _, _, _, _ => by simp [JValue.plain] at hv
  | .str s, hv, fuel, rest, hf, _ => by
    cases fuel with
    | zero => simp [JValue.render, quoteString] at hf
    | succ f => exact readValue_str f s (by simpa [JValue.plain] using hv) rest
  | .arr [], _, fuel, rest, hf, _ => by
    cases fuel with
    | zero => simp [JValue.render] at hf
    | succ f => simpa [JValue.render, renderElems] using readValue_arr_nil f rest
  | .arr (x :: xs), hv, fuel, rest, hf, _ => by
    have hp : plainElems (x :: xs) := by simpa [JValue.plain] using hv
    cases fuel with
    | zero => simp [JValue.render] at hf
    | succ f =>
      obtain ⟨h, tl, e, s1, s2, _⟩ := render_head x hp.1
      have hl : (renderElems (x :: xs)).length ≤ f := by
        simp only [JValue.render, renderElems, List.cons_append, List.tail_cons,
          List.length_cons, List.length_append, List.length_nil] at hf ⊢
        omega
      have hE := readElems_render (x :: xs) hp (by simp) f rest hl
      simp only [renderElems, List.tail_cons] at hE
      simp only [JValue.render, renderElems, List.tail_cons, List.cons_append, List.append_assoc,
        List.nil_append] at hE ⊢
      rw [e] at hE ⊢
      simp only [List.cons_append] at hE ⊢
      rw [readValue_arr_cons f h _ s1 s2, hE]
      rfl
  | .obj [], _, fuel, rest, hf, _ => by
    cases fuel with
    | zero => simp [JValue.render] at hf
    | succ f => simpa [JValue.render, renderMembers] using readValue_obj_nil f rest
  | .obj ((k, v) :: kvs), hv, fuel, rest, hf, _ => by
    have hp : plainMembers ((k, v) :: kvs) := by simpa [JValue.plain] using hv
    cases fuel with
    | zero => simp [JValue.render] at hf
    | succ f =>
      have hl : (renderMembers ((k, v) :: kvs)).length ≤ f := by
        simp only [JValue.render, renderMembers, List.cons_append, List.tail_cons,
          List.length_cons, List.length_append, List.length_nil] at hf ⊢
        omega
      have hM := readMembers_render ((k, v) :: kvs) hp (by simp) f rest hl
      obtain ⟨tl, e⟩ := quoteString_head k
      simp only [renderMembers, List.tail_cons] at hM
      simp only [JValue.render, renderMembers, List.tail_cons, List.cons_append,
        List.append_assoc, List.nil_append] at hM ⊢
      rw [e] at hM ⊢
      simp only [List.cons_append] at hM ⊢
      rw [readValue_obj_cons f 34 _ (by decide) (by decide), hM]
      rfl
/-- Reading the elements the encoder wrote, up to the closing bracket, gives them back. -/
theorem readElems_render : (xs : List JValue) → plainElems xs → xs ≠ [] → ∀ fuel rest,
    (renderElems xs).length ≤ fuel →
    readElems fuel ((renderElems xs).tail ++ 93 :: rest) = some (xs, rest)
  | [], _, hne, _, _, _ => absurd rfl hne
  | [x], hp, _, fuel, rest, hf => by
    cases fuel with
    | zero => simp [renderElems] at hf
    | succ f =>
      have hx := readValue_render x hp.1 f (93 :: rest) (by
        simp only [renderElems, List.length_cons, List.length_append, List.length_nil] at hf
        omega) (delimited_close_arr rest)
      simp only [renderElems, List.tail_cons, List.append_nil]
      exact readElems_last f _ x rest hx
  | x :: y :: ys, hp, _, fuel, rest, hf => by
    cases fuel with
    | zero => simp [renderElems] at hf
    | succ f =>
      have hp2 : plainElems (y :: ys) := hp.2
      obtain ⟨h, tl, e, s1, _, _⟩ := render_head y hp2.1
      have hlen : (renderElems (y :: ys)).length ≤ f := by
        simp only [renderElems, List.length_cons, List.length_append] at hf ⊢
        omega
      have hrec := readElems_render (y :: ys) hp2 (by simp) f rest hlen
      have hx := readValue_render x hp.1 f (renderElems (y :: ys) ++ 93 :: rest) (by
        simp only [renderElems, List.length_cons, List.length_append] at hf
        omega) (by simp only [renderElems, List.cons_append]; exact delimited_comma _)
      simp only [renderElems, List.tail_cons, List.cons_append, List.append_assoc] at hx hrec ⊢
      rw [e] at hx hrec ⊢
      simp only [List.cons_append] at hx hrec ⊢
      rw [readElems_more f _ x h _ s1 hx, hrec]
      rfl
/-- Reading the members the encoder wrote, up to the closing brace, gives them back. -/
theorem readMembers_render : (kvs : List (GoString × JValue)) → plainMembers kvs → kvs ≠ [] →
    ∀ fuel rest, (renderMembers kvs).length ≤ fuel →
    readMembers fuel ((renderMembers kvs).tail ++ 125 :: rest) = some (kvs, rest)
  | [], _, hne, _, _, _ => absurd rfl hne
  | [(k, v)], hp, _, fuel, rest, hf => by
    cases fuel with
    | zero => simp [renderMembers] at hf
    | succ f =>
      obtain ⟨h, tl, e, s1, _, _⟩ := render_head v hp.2.1
      have hx := readValue_render v hp.2.1 f (125 :: rest) (by
        simp only [renderMembers, List.length_cons, List.length_append, List.length_nil] at hf
        omega) (delimited_close_obj rest)
      rw [e] at hx
      simp only [List.cons_append] at hx
      refine readMembers_last f k hp.1 _ h (tl ++ 125 :: rest) s1 v rest hx ?_
      simp [renderMembers, e]
  | (k, v) :: (k2, v2) :: kvs, hp, _, fuel, rest, hf => by
    cases fuel with
    | zero => simp [renderMembers] at hf
    | succ f =>
      have hp2 : plainMembers ((k2, v2) :: kvs) := hp.2.2
      obtain ⟨h, tl, e, s1, _, _⟩ := render_head v hp.2.1
      obtain ⟨tl2, e2⟩ := quoteString_head k2
      have hlen : (renderMembers ((k2, v2) :: kvs)).length ≤ f := by
        simp only [renderMembers, List.length_cons, List.length_append] at hf ⊢
        omega
      have hrec := readMembers_render ((k2, v2) :: kvs) hp2 (by simp) f rest hlen
      have hx := readValue_render v hp.2.1 f (renderMembers ((k2, v2) :: kvs) ++ 125 :: rest) (by
        simp only [renderMembers, List.length_cons, List.length_append] at hf
        omega) (by simp only [renderMembers, List.cons_append]; exact delimited_comma _)
      simp only [renderMembers, List.tail_cons, List.cons_append, List.append_assoc]
        at hx hrec ⊢
      rw [e] at hx
      rw [e2] at hx hrec
      simp only [List.cons_append] at hx hrec
      rw [readMembers_more f k hp.1 _ h _ s1 v 34 _ (by decide) hx (by simp [e, e2]), hrec]
      rfl
end

/-- The reader gives back every plain value from the text the encoder wrote for it. -/
theorem parseJSON_render (v : JValue) (hv : v.plain) : parseJSON v.render = some v := by
  obtain ⟨h, tl, e, s1, _, _⟩ := render_head v hv
  have hr := readValue_render v hv (v.render.length + 1) [] (by omega) (Or.inl rfl)
  simp only [List.append_nil] at hr
  unfold parseJSON
  have hs : skipSpace v.render = v.render := by rw [e]; exact skipSpace_cons _ _ s1
  rw [hs, hr]
  rfl

/-! ## Decoding the text of an encoded `Page` -/

theorem lit_valid (s : String) : GoString.valid (lit s) := ⟨s.data, rfl⟩

theorem utf8_valid (cs : List Char) : GoString.valid (utf8 cs) := ⟨cs, rfl⟩

theorem plainElems_strs (xs : List GoString) (h : ∀ x ∈ xs, GoString.valid x) :
    plainElems (xs.map JValue.str) := by
  induction xs with
  | nil => simp [plainElems]
  | cons x xs ih =>
    simp only [List.map_cons, plainElems, JValue.plain]
    exact ⟨h x (List.mem_cons_self _ _), ih fun y hy => h y (List.mem_cons_of_mem _ hy)⟩

theorem plainMembers_strs (es : List (GoString × GoString))
    (h : ∀ e ∈ es, GoString.valid e.1 ∧ GoString.valid e.2) :
    plainMembers (es.map fun e => (e.1, JValue.str e.2)) := by
  induction es with
  | nil => simp [plainMembers]
  | cons e es ih =>
    simp only [List.map_cons, plainMembers, JValue.plain]
    exact ⟨(h e (List.mem_cons_self _ _)).1, (h e (List.mem_cons_self _ _)).2,
      ih fun y hy => h y (List.mem_cons_of_mem _ hy)⟩

theorem sliceValue_plain (xs : Option (List GoString))
    (h : ∀ x ∈ xs.getD [], GoString.valid x) : (sliceValue xs).plain := by
  cases xs with
  | none => simp [sliceValue, JValue.plain]
  | some l =>
    simp only [sliceValue, JValue.plain]
    exact plainElems_strs l h

theorem mapValue_plain (es : Option (List (GoString × GoString)))
    (h : ∀ e ∈ es.getD [], GoString.valid e.1 ∧ GoString.valid e.2) : (mapValue es).plain := by
  cases es with
  | none => simp [mapValue, JValue.plain]
  | some l =>
    simp only [mapValue, JValue.plain]
    exact plainMembers_strs _ fun e he => h e ((sortEntries_perm l).mem_iff.1 he)

theorem marshalSource_plain (s : Source) (h : s.wf) (h1 : GoString.valid s.TimeUUID)
    (h2 : GoString.valid s.Authority) : (marshalSource s).plain := by
  obtain ⟨a1, a2, a3, a4⟩ := h
  simp only [marshalSource, JValue.plain, plainMembers]
  exact ⟨lit_valid _, by omega, lit_valid _, by omega, lit_valid _, h1, lit_valid _, h2, trivial⟩

/-- The tree the encoder builds for a page whose strings are valid UTF-8 is plain. -/
theorem pageTree_plain (p : Page) (h : p.wf) (hv : p.validUTF8) :
    (JValue.obj [(lit "identifier", .str p.ID), (lit "_source", marshalSource p.Source),
      (lit "name", .str p.Name), (lit "url", .str p.URL),
      (lit "dateModified", .str (utf8 (formatRFC3339 p.DateModified))),
      (lit "hasPart", sliceValue p.HasPart), (lit "about", mapValue p.About)]).plain := by
  obtain ⟨v1, v2, v3, v4, v5, v6, v7⟩ := hv
  simp only [JValue.plain, plainMembers]
  exact ⟨lit_valid _, v1, lit_valid _, marshalSource_plain _ h.1 v2 v3, lit_valid _, v4,
    lit_valid _, v5, lit_valid _, utf8_valid _, lit_valid _, sliceValue_plain _ v6, lit_valid _,
    mapValue_plain _ v7, trivial⟩

/-- The text written for a page whose strings are valid UTF-8 is read back as the tree the
encoder built. -/
theorem parseJSON_page (p : Page) (h : p.wf) (hv : p.validUTF8) :
    parseJSON (JValue.obj [(lit "identifier", .str p.ID), (lit "_source", marshalSource p.Source),
      (lit "name", .str p.Name), (lit "url", .str p.URL),
      (lit "dateModified", .str (utf8 (formatRFC3339 p.DateModified))),
      (lit "hasPart", sliceValue p.HasPart), (lit "about", mapValue p.About)]).render
    = some (JValue.obj [(lit "identifier", .str p.ID), (lit "_source", marshalSource p.Source),
      (lit "name", .str p.Name), (lit "url", .str p.URL),
      (lit "dateModified", .str (utf8 (formatRFC3339 p.DateModified))),
      (lit "hasPart", sliceValue p.HasPart), (lit "about", mapValue p.About)]) :=
  parseJSON_render _ (pageTree_plain p h hv)

/-- Decoding the text of an encoded page into a fresh `Page` fills in every field but
`DateModified`, which stays at the zero time, and reports the type error of that field. -/
theorem Unmarshal_page (p : Page) (h : p.wf) (hv : p.validUTF8) :
    Unmarshal (JValue.obj [(lit "identifier", .str p.ID), (lit "_source", marshalSource p.Source),
      (lit "name", .str p.Name), (lit "url", .str p.URL),
      (lit "dateModified", .str (utf8 (formatRFC3339 p.DateModified))),
      (lit "hasPart", sliceValue p.HasPart), (lit "about", mapValue p.About)]).render zeroPage
    = ({ ID := p.ID, Source := p.Source, Name := p.Name, URL := p.URL, DateModified := zeroTime,
         HasPart := p.HasPart, About := p.About.map sortEntries },
       some (.unmarshalType "string" "common.JSONTime" "dateModified")) := by
  unfold Unmarshal
  rw [parseJSON_page p h hv]
  exact unmarshalPage_marshal p h

theorem examplePage_validUTF8 : examplePage.validUTF8 := by
  refine ⟨lit_valid _, lit_valid _, lit_valid _, lit_valid _, lit_valid _, ?_, ?_⟩
  · intro x hx
    simp only [examplePage, Option.getD_some, List.mem_cons, List.mem_singleton,
      List.not_mem_nil, or_false] at hx
    rcases hx with hx | hx <;> rw [hx] <;> exact lit_valid _
  · intro e he
    simp only [examplePage, Option.getD_some, List.mem_singleton] at he
    rw [he]
    exact ⟨lit_valid _, lit_valid _⟩

/-! ## String literals of the source as Go strings -/

theorem utf8_injective : ∀ (cs ds : List Char), utf8 cs = utf8 ds → cs = ds
  | [], [], _ => rfl
  | [], d :: ds, h => by
    have h1 := encodeRune_length_pos d.toNat
    have h2 := congrArg List.length h
    simp only [utf8, List.length_nil, List.length_append] at h2
    omega
  | c :: cs, [], h => by
    have h1 := encodeRune_length_pos c.toNat
    have h2 := congrArg List.length h
    simp only [utf8, List.length_nil, List.length_append] at h2
    omega
  | c :: cs, d :: ds, h => by
    have h1 := decodeRune_encodeRune_nat c.toNat (char_valid_nat c) (utf8 cs)
    have h2 := decodeRune_encodeRune_nat d.toNat (char_valid_nat d) (utf8 ds)
    simp only [utf8] at h
    rw [h, h2] at h1
    have hc : d.toNat = c.toNat := (Prod.mk.inj h1).1
    have hcd : d = c := by
      rw [← Char.ofNat_toNat d, ← Char.ofNat_toNat c, hc]
    subst hcd
    rw [utf8_injective cs ds (List.append_cancel_left h)]

/-- Two string literals denote the same Go string only if they are the same literal. -/
theorem lit_eq_iff (a b : String) : lit a = lit b ↔ a = b := by
  constructor
  · intro h
    exact String.ext (utf8_injective _ _ h)
  · intro h
    rw [h]

theorem lit_beq (a b : String) : (lit a == lit b) = decide (a = b) := by
  by_cases h : a = b
  · simp [h]
  · have : ¬ lit a = lit b := fun e => h ((lit_eq_iff a b).1 e)
    simp [h, this]

theorem lit_eq_nil (a : String) : lit a = [] ↔ a = "" := by
  have := lit_eq_iff a ""
  simpa [lit, utf8] using this

/-! ## Claims about `JSONTime.MarshalJSON` -/

/-- C2, where the claim fails: a timestamp with a non-zero nanosecond part does not come back from
its encoding as the same instant, since the layout RFC3339 has no fractional seconds.  The text
for half a second past 2020-02-29T23:59:59Z is the text of the whole second, and it decodes to
the whole second. -/
theorem C2_nanoseconds_lost :
    JSONTime.MarshalJSON ⟨1583020799, 500000000, 0⟩ = JSONTime.MarshalJSON ⟨1583020799, 0, 0⟩
    ∧ ¬ ∃ d, decodeJSONTime (JSONTime.MarshalJSON ⟨1583020799, 500000000, 0⟩).1 = some d
        ∧ d.sameInstant ⟨1583020799, 500000000, 0⟩ := by
  refine ⟨by decide, ?_⟩
  have h : decodeJSONTime (JSONTime.MarshalJSON ⟨1583020799, 500000000, 0⟩).1
      = some ⟨1583020799, 0, 0⟩ := by decide
  rintro ⟨d, hd, hs⟩
  rw [h] at hd
  cases hd
  revert hs
  decide

/-- C2, as amended: for every timestamp `t` that is a whole second, whose zone offset is a whole
number of minutes within a day and whose local reading lies in the years 0000 to 9999, decoding
the text `JSONTime.MarshalJSON` produces gives back the same instant as `t`; consequently any
other such timestamp `u` denoting the same instant, whatever its zone offset, encodes to a text
that decodes to that same instant. -/
theorem C2_decode_gives_same_instant (t u : Time)
    (hn : t.nsec = 0) (hm : t.offset % 60 = 0) (hlt : t.offset.natAbs < 86400)
    (hr : t.inRFC3339Range)
    (hn2 : u.nsec = 0) (hm2 : u.offset % 60 = 0) (hlt2 : u.offset.natAbs < 86400)
    (hr2 : u.inRFC3339Range) (hsame : u.sameInstant t) :
    (∃ d, decodeJSONTime (JSONTime.MarshalJSON t).1 = some d ∧ d.sameInstant t)
    ∧ (∃ d e, decodeJSONTime (JSONTime.MarshalJSON t).1 = some d
        ∧ decodeJSONTime (JSONTime.MarshalJSON u).1 = some e ∧ d.sameInstant e) := by
  have h1 := decodeJSONTime_marshal t hn hm hlt hr
  have h2 := decodeJSONTime_marshal u hn2 hm2 hlt2 hr2
  refine ⟨⟨t, h1, rfl, rfl⟩, t, u, h1, h2, ?_⟩
  exact ⟨hsame.1.symm, hsame.2.symm⟩

/-- Witness for C2: 2020-03-01T00:59:59+01:00 and 2020-02-29T18:29:59-05:30 are the same
instant. -/
theorem C2_decode_gives_same_instant_witness :
    (∃ d, decodeJSONTime (JSONTime.MarshalJSON ⟨1583020799, 0, 3600⟩).1 = some d
        ∧ d.sameInstant ⟨1583020799, 0, 3600⟩)
    ∧ (∃ d e, decodeJSONTime (JSONTime.MarshalJSON ⟨1583020799, 0, 3600⟩).1 = some d
        ∧ decodeJSONTime (JSONTime.MarshalJSON ⟨1583020799, 0, -19800⟩).1 = some e
        ∧ d.sameInstant e) :=
  C2_decode_gives_same_instant ⟨1583020799, 0, 3600⟩ ⟨1583020799, 0, -19800⟩
    (by decide) (by decide) (by decide) (by decide) (by decide) (by decide) (by decide)
    (by decide) (by decide)

/-- C3, where the claim fails: the first second of the year 10000 is written with a five-digit
year, and an offset of 100 hours with three-digit hours; neither text has the shape
`YYYY-MM-DDThh:mm:ss` followed by `Z` or a signed `hh:mm`, and no error is returned. -/
theorem C3_year_10000_not_in_layout :
    JSONTime.MarshalJSON ⟨253402300800, 0, 0⟩ = ("\"10000-01-01T00:00:00Z\"", none)
    ∧ isRFC3339Layout "10000-01-01T00:00:00Z".data = false
    ∧ JSONTime.MarshalJSON ⟨0, 0, 360000⟩ = ("\"1970-01-05T04:00:00+100:00\"", none)
    ∧ isRFC3339Layout "1970-01-05T04:00:00+100:00".data = false := by
  decide

/-- C3, as amended: for every timestamp `t`, `JSONTime.MarshalJSON` returns no error and its bytes
are one double quote, `t` formatted with the layout RFC3339, and one double quote; when the local
reading of `t` lies in the years 0000 to 9999 and its zone offset is below 100 hours, the
formatted text is exactly `YYYY-MM-DDThh:mm:ss` followed by `Z` or a signed `hh:mm`. -/
theorem C3_marshalJSON_layout (t : Time) :
    (JSONTime.MarshalJSON t).2 = none
    ∧ ∃ body, (JSONTime.MarshalJSON t).1 = String.mk (quoteChar :: body ++ [quoteChar])
        ∧ body = formatRFC3339 t
        ∧ (t.inRFC3339Range → t.offset.natAbs < 360000 → isRFC3339Layout body = true) :=
  ⟨rfl, formatRFC3339 t, rfl, rfl, isRFC3339Layout_format t⟩

/-- Witness for C3: 2020-02-29T18:29:59-05:30. -/
theorem C3_marshalJSON_layout_witness :
    (JSONTime.MarshalJSON ⟨1583020799, 0, -19800⟩).2 = none
    ∧ ∃ body, (JSONTime.MarshalJSON ⟨1583020799, 0, -19800⟩).1
          = String.mk (quoteChar :: body ++ [quoteChar])
        ∧ body = formatRFC3339 ⟨1583020799, 0, -19800⟩
        ∧ isRFC3339Layout body = true := by
  obtain ⟨h1, body, h2, h3, h4⟩ := C3_marshalJSON_layout ⟨1583020799, 0, -19800⟩
  exact ⟨h1, body, h2, h3, h4 (by decide) (by decide)⟩

/-- C4, where the claim fails: a timestamp in a zone half a minute east of UTC is written with the
offset `+00:00`, not with its own offset of 30 seconds. -/
theorem C4_offset_seconds_dropped :
    JSONTime.MarshalJSON ⟨0, 0, 30⟩ = ("\"1970-01-01T00:00:30+00:00\"", none)
    ∧ ¬ ∃ f, readFields (formatRFC3339 ⟨0, 0, 30⟩) = some f ∧ f.offset = (⟨0, 0, 30⟩ : Time).offset := by
  refine ⟨by decide, ?_⟩
  have h : readFields (formatRFC3339 ⟨0, 0, 30⟩) = some ⟨1970, 1, 1, 0, 0, 30, 0⟩ := by decide
  rintro ⟨f, hf, ho⟩
  rw [h] at hf
  cases hf
  revert ho
  decide

/-- C4, as amended: for every timestamp `t` whose zone offset is a whole number of minutes within
a day, the zone designator written after the date and clock of the text is exactly the offset of
`t`; and when the local reading of `t` lies in the years 0000 to 9999, the fields of the text are
the reading of the local clock at that offset (Unix second plus offset), not the UTC reading. -/
theorem C4_own_offset_written (t : Time) (hm : t.offset % 60 = 0)
    (hlt : t.offset.natAbs < 86400) :
    (∃ zone, (JSONTime.MarshalJSON t).1
          = String.mk (quoteChar :: (appendDateClock t.abs ++ zone) ++ [quoteChar])
        ∧ readZone zone = some t.offset)
    ∧ (t.inRFC3339Range → ∃ f, readFields (formatRFC3339 t) = some f ∧ f.offset = t.offset
        ∧ dateToUnix f.year f.month f.day f.hour f.min f.sec = t.unix + t.offset) := by
  constructor
  · obtain ⟨zone, hz, hr⟩ := formatRFC3339_zone t hm hlt
    refine ⟨zone, ?_, hr⟩
    simp only [JSONTime.MarshalJSON, hz, List.singleton_append, List.cons_append,
      List.append_assoc, List.nil_append]
  · intro hr
    obtain ⟨y0, y1⟩ := localYear_of_inRange t hr
    have hy : ((t.localYear.toNat : Nat) : Int) = (absDate t.abs).year := by
      unfold Time.localYear at *
      omega
    obtain ⟨ha, _, _⟩ := abs_of_inRange t hr
    refine ⟨_, readFields_format t hr hm hlt, rfl, ?_⟩
    simp only [hy, dateToUnix_absDate, ha]
    omega

/-- Witness for C4: 2020-02-29T18:29:59-05:30, five and a half hours west of UTC. -/
theorem C4_own_offset_written_witness :
    (∃ zone, (JSONTime.MarshalJSON ⟨1583020799, 0, -19800⟩).1
          = String.mk (quoteChar :: (appendDateClock (Time.abs ⟨1583020799, 0, -19800⟩) ++ zone)
              ++ [quoteChar])
        ∧ readZone zone = some (-19800))
    ∧ (∃ f, readFields (formatRFC3339 ⟨1583020799, 0, -19800⟩) = some f ∧ f.offset = -19800
        ∧ dateToUnix f.year f.month f.day f.hour f.min f.sec = 1583020799 + -19800) := by
  obtain ⟨h1, h2⟩ := C4_own_offset_written ⟨1583020799, 0, -19800⟩ (by decide) (by decide)
  exact ⟨h1, h2 (by decide)⟩

/-! ## Claims about the encoding of the record types -/

set_option maxRecDepth 1000000 in
/-- C1, where the claim fails.  The example page encodes, but decoding its text into a fresh
`Page` reports a type error for `dateModified`, as `JSONTime` has an encoder only, and leaves the
zero time there; encoding the decoded page gives a different text.  Apart from the timestamp, a
page whose identifier is the byte `0xff` is written with the escape of U+FFFD, decoded to the
three bytes of U+FFFD, and those are written raw the second time: the identifier is not restored
and the second text differs even with the timestamp put back. -/
theorem C1_decoding_fails_on_dateModified :
    renderResult (marshalPage examplePage) = .ok (lit "\x7b\"identifier\":\"Q1\",\"_source\":\x7b\"id\":12,\"revision\":3,\"tid\":\"abc-1\",\"authority\":\"en.wiki\"\x7d,\"name\":\"Earth\",\"url\":\"//en.wiki/Earth\",\"dateModified\":\"2020-02-29T23:59:59Z\",\"hasPart\":[\"sec-1\",\"sec-2\"],\"about\":\x7b\"wikidata\":\"Q2\"\x7d\x7d")
    ∧ Unmarshal (lit "\x7b\"identifier\":\"Q1\",\"_source\":\x7b\"id\":12,\"revision\":3,\"tid\":\"abc-1\",\"authority\":\"en.wiki\"\x7d,\"name\":\"Earth\",\"url\":\"//en.wiki/Earth\",\"dateModified\":\"2020-02-29T23:59:59Z\",\"hasPart\":[\"sec-1\",\"sec-2\"],\"about\":\x7b\"wikidata\":\"Q2\"\x7d\x7d") zeroPage
        = ({ examplePage with DateModified := zeroTime },
            some (.unmarshalType "string" "common.JSONTime" "dateModified"))
    ∧ renderResult (marshalPage { examplePage with DateModified := zeroTime })
        = .ok (lit "\x7b\"identifier\":\"Q1\",\"_source\":\x7b\"id\":12,\"revision\":3,\"tid\":\"abc-1\",\"authority\":\"en.wiki\"\x7d,\"name\":\"Earth\",\"url\":\"//en.wiki/Earth\",\"dateModified\":\"0001-01-01T00:00:00Z\",\"hasPart\":[\"sec-1\",\"sec-2\"],\"about\":\x7b\"wikidata\":\"Q2\"\x7d\x7d")
    ∧ renderResult (marshalPage { examplePage with DateModified := zeroTime })
        ≠ renderResult (marshalPage examplePage)
    ∧ renderResult (marshalPage invalidPage) = .ok (lit "\x7b\"identifier\":\"\\ufffd\",\"_source\":\x7b\"id\":0,\"revision\":0,\"tid\":\"\",\"authority\":\"\"\x7d,\"name\":\"\",\"url\":\"\",\"dateModified\":\"0001-01-01T00:00:00Z\",\"hasPart\":null,\"about\":null\x7d")
    ∧ Unmarshal (lit "\x7b\"identifier\":\"\\ufffd\",\"_source\":\x7b\"id\":0,\"revision\":0,\"tid\":\"\",\"authority\":\"\"\x7d,\"name\":\"\",\"url\":\"\",\"dateModified\":\"0001-01-01T00:00:00Z\",\"hasPart\":null,\"about\":null\x7d") zeroPage
        = ({ invalidPage with ID := [239, 191, 189] },
            some (.unmarshalType "string" "common.JSONTime" "dateModified"))
    ∧ invalidPage.ID = [255]
    ∧ renderResult (marshalPage { invalidPage with ID := [239, 191, 189] })
        = .ok (lit "\x7b\"identifier\":\"\uFFFD\",\"_source\":\x7b\"id\":0,\"revision\":0,\"tid\":\"\",\"authority\":\"\"\x7d,\"name\":\"\",\"url\":\"\",\"dateModified\":\"0001-01-01T00:00:00Z\",\"hasPart\":null,\"about\":null\x7d")
    ∧ renderResult (marshalPage { invalidPage with ID := [239, 191, 189] })
        ≠ renderResult (marshalPage invalidPage) := by
  have e1 : renderResult (marshalPage examplePage) = .ok (lit "\x7b\"identifier\":\"Q1\",\"_source\":\x7b\"id\":12,\"revision\":3,\"tid\":\"abc-1\",\"authority\":\"en.wiki\"\x7d,\"name\":\"Earth\",\"url\":\"//en.wiki/Earth\",\"dateModified\":\"2020-02-29T23:59:59Z\",\"hasPart\":[\"sec-1\",\"sec-2\"],\"about\":\x7b\"wikidata\":\"Q2\"\x7d\x7d") := by
    rfl
  have e2 : renderResult (marshalPage { examplePage with DateModified := zeroTime })
        = .ok (lit "\x7b\"identifier\":\"Q1\",\"_source\":\x7b\"id\":12,\"revision\":3,\"tid\":\"abc-1\",\"authority\":\"en.wiki\"\x7d,\"name\":\"Earth\",\"url\":\"//en.wiki/Earth\",\"dateModified\":\"0001-01-01T00:00:00Z\",\"hasPart\":[\"sec-1\",\"sec-2\"],\"about\":\x7b\"wikidata\":\"Q2\"\x7d\x7d") := by
    rfl
  have e3 : renderResult (marshalPage invalidPage) = .ok (lit "\x7b\"identifier\":\"\\ufffd\",\"_source\":\x7b\"id\":0,\"revision\":0,\"tid\":\"\",\"authority\":\"\"\x7d,\"name\":\"\",\"url\":\"\",\"dateModified\":\"0001-01-01T00:00:00Z\",\"hasPart\":null,\"about\":null\x7d") := by
    rfl
  have e4 : renderResult (marshalPage { invalidPage with ID := [239, 191, 189] })
        = .ok (lit "\x7b\"identifier\":\"\uFFFD\",\"_source\":\x7b\"id\":0,\"revision\":0,\"tid\":\"\",\"authority\":\"\"\x7d,\"name\":\"\",\"url\":\"\",\"dateModified\":\"0001-01-01T00:00:00Z\",\"hasPart\":null,\"about\":null\x7d") := by
    rfl
  refine ⟨e1, by decide, e2, ?_, e3, by decide, rfl, e4, ?_⟩
  · rw [e1, e2]
    intro h
    injection h with h
    revert h
    decide
  · rw [e3, e4]
    intro h
    injection h with h
    revert h
    decide

/-- C1, as amended: for every `Page` value `p` that Go can hold and whose strings are all valid
UTF-8, encoding `p` succeeds; decoding that JSON text into a fresh `Page` restores every field
except `DateModified`, for which the decoder reports a type error and leaves the zero time, since
`JSONTime` has an encoder only; and the decoded page with `DateModified` set back to that of `p`
encodes to exactly the same JSON text as the first encoding. -/
theorem C1_roundtrip_except_dateModified (p : Page) (h : p.wf) (hv : p.validUTF8) :
    ∃ text q, renderResult (marshalPage p) = .ok text
      ∧ Unmarshal text zeroPage
          = (q, some (.unmarshalType "string" "common.JSONTime" "dateModified"))
      ∧ q.ID = p.ID ∧ q.Source = p.Source ∧ q.Name = p.Name ∧ q.URL = p.URL
      ∧ q.HasPart = p.HasPart ∧ q.About = p.About.map sortEntries
      ∧ q.DateModified = zeroTime
      ∧ renderResult (marshalPage { q with DateModified := p.DateModified }) = .ok text := by
  refine ⟨_, _, by rw [marshalPage_ok]; rfl, Unmarshal_page p h hv, rfl, rfl, rfl, rfl, rfl, rfl,
    rfl, ?_⟩
  rw [marshalPage_ok]
  simp only [renderResult]
  cases hA : p.About with
  | none => rfl
  | some es => simp only [Option.map_some', mapValue, sortEntries_idem]

/-- Witness for C1: the example page of the specification. -/
theorem C1_roundtrip_except_dateModified_witness :
    examplePage.wf ∧ examplePage.validUTF8
    ∧ ∃ text q, renderResult (marshalPage examplePage) = .ok text
      ∧ Unmarshal text zeroPage
          = (q, some (.unmarshalType "string" "common.JSONTime" "dateModified"))
      ∧ q.ID = examplePage.ID ∧ q.Source = examplePage.Source ∧ q.Name = examplePage.Name
      ∧ q.URL = examplePage.URL
      ∧ q.HasPart = examplePage.HasPart ∧ q.About = examplePage.About.map sortEntries
      ∧ q.DateModified = zeroTime
      ∧ renderResult (marshalPage { q with DateModified := examplePage.DateModified })
          = .ok text :=
  ⟨by decide, examplePage_validUTF8,
    C1_roundtrip_except_dateModified examplePage (by decide) examplePage_validUTF8⟩

/-- C5, where the claim fails: a `Page` and a `Section` whose collections are nil, as in the zero
values, have no elements in them, and the encoder writes `null` for each, not `[]` or `{}`. -/
theorem C5_nil_collections_written_null :
    renderResult (marshalPage zeroPage) = .ok (lit "\x7b\"identifier\":\"\",\"_source\":\x7b\"id\":0,\"revision\":0,\"tid\":\"\",\"authority\":\"\"\x7d,\"name\":\"\",\"url\":\"\",\"dateModified\":\"0001-01-01T00:00:00Z\",\"hasPart\":null,\"about\":null\x7d")
    ∧ renderResult (marshalSection ⟨[], [], none, zeroTime, []⟩) = .ok (lit "\x7b\"id\":\"\",\"isPartOf\":null,\"dateModified\":\"0001-01-01T00:00:00Z\",\"unsafe\":\"\"\x7d") := by
  exact ⟨by rfl, by rfl⟩

theorem member_page (p : Page) (dm : JValue) :
    (JValue.obj [(lit "identifier", .str p.ID), (lit "_source", marshalSource p.Source),
      (lit "name", .str p.Name), (lit "url", .str p.URL), (lit "dateModified", dm),
      (lit "hasPart", sliceValue p.HasPart), (lit "about", mapValue p.About)]).member (lit "hasPart")
        = some (sliceValue p.HasPart)
    ∧ (JValue.obj [(lit "identifier", .str p.ID), (lit "_source", marshalSource p.Source),
      (lit "name", .str p.Name), (lit "url", .str p.URL), (lit "dateModified", dm),
      (lit "hasPart", sliceValue p.HasPart), (lit "about", mapValue p.About)]).member (lit "about")
        = some (mapValue p.About) := by
  exact ⟨rfl, rfl⟩

theorem section_members (s : Section) (dm : JValue) :
    (JValue.obj ([(lit "id", .str s.ID)] ++ omitEmpty "name" s.Name
      ++ [(lit "isPartOf", sliceValue s.IsPartOf), (lit "dateModified", dm),
          (lit "unsafe", .str s.Unsafe)])).member (lit "isPartOf") = some (sliceValue s.IsPartOf)
    ∧ (JValue.obj ([(lit "id", .str s.ID)] ++ omitEmpty "name" s.Name
      ++ [(lit "isPartOf", sliceValue s.IsPartOf), (lit "dateModified", dm),
          (lit "unsafe", .str s.Unsafe)])).keys
        = if s.Name = [] then [lit "id", lit "isPartOf", lit "dateModified", lit "unsafe"]
          else [lit "id", lit "name", lit "isPartOf", lit "dateModified", lit "unsafe"] := by
  by_cases h : s.Name = []
  · simp only [omitEmpty, h, if_true, List.append_nil]
    exact ⟨rfl, rfl⟩
  · simp only [omitEmpty, h, if_false]
    exact ⟨rfl, rfl⟩

/-- C5, as amended: for every `Page` `p` and every `Section` `s`, the encoded JSON object always
has the keys `hasPart` and `about` (for the `Page`) and `isPartOf` (for the `Section`); the value
written for a collection that is empty but not nil is the empty collection (`[]` for the two
sequences, `{}` for the mapping), and the value written for a nil collection is `null`; the key is
never left out. -/
theorem C5_collection_keys_always_written (p : Page) (s : Section) :
    ∃ v w, marshalPage p = .ok v ∧ marshalSection s = .ok w
      ∧ lit "hasPart" ∈ v.keys ∧ lit "about" ∈ v.keys ∧ lit "isPartOf" ∈ w.keys
      ∧ (p.HasPart = some [] → v.member (lit "hasPart") = some (.arr []))
      ∧ (p.About = some [] → v.member (lit "about") = some (.obj []))
      ∧ (s.IsPartOf = some [] → w.member (lit "isPartOf") = some (.arr []))
      ∧ (p.HasPart = none → v.member (lit "hasPart") = some .null)
      ∧ (p.About = none → v.member (lit "about") = some .null)
      ∧ (s.IsPartOf = none → w.member (lit "isPartOf") = some .null)
      ∧ (JValue.arr []).render = lit "[]" ∧ (JValue.obj []).render = lit "\x7b\x7d"
      ∧ JValue.null.render = lit "null" := by
  obtain ⟨m1, m2⟩ := member_page p (.str (utf8 (formatRFC3339 p.DateModified)))
  obtain ⟨m3, m4⟩ := section_members s (.str (utf8 (formatRFC3339 s.DateModified)))
  refine ⟨_, _, marshalPage_ok p, marshalSection_ok s, by simp [JValue.keys, lit_eq_iff],
    by simp [JValue.keys, lit_eq_iff], ?_, ?_, ?_, ?_, ?_, ?_, ?_, by rfl, by rfl, by rfl⟩
  · rw [m4]; split_ifs <;> simp [lit_eq_iff]
  · intro h; rw [m1, h]; rfl
  · intro h; rw [m2, h]; rfl
  · intro h; rw [m3, h]; rfl
  · intro h; rw [m1, h]; rfl
  · intro h; rw [m2, h]; rfl
  · intro h; rw [m3, h]; rfl

/-- Witness for C5: a page and a section whose collections are empty but not nil. -/
theorem C5_collection_keys_always_written_witness :
    ∃ v w, marshalPage { zeroPage with HasPart := some [], About := some [] } = .ok v
      ∧ marshalSection ⟨lit "s", [], some [], zeroTime, []⟩ = .ok w
      ∧ v.member (lit "hasPart") = some (.arr []) ∧ v.member (lit "about") = some (.obj [])
      ∧ w.member (lit "isPartOf") = some (.arr []) := by
  obtain ⟨v, w, h1, h2, _, _, _, h3, h4, h5, _⟩ :=
    C5_collection_keys_always_written { zeroPage with HasPart := some [], About := some [] }
      ⟨lit "s", [], some [], zeroTime, []⟩
  exact ⟨v, w, h1, h2, h3 rfl, h4 rfl, h5 rfl⟩

/-- C6: for every `Section` `s`, the encoded JSON object has a `name` key if and only if `s.Name`
is not empty, in which case the value is that name; a `Section` with an empty name is encoded with
no `name` key at all; `id`, `isPartOf`, `dateModified` and `unsafe` are always present. -/
theorem C6_section_name_omitted_when_empty (s : Section) :
    ∃ w, marshalSection s = .ok w
      ∧ (lit "name" ∈ w.keys ↔ s.Name ≠ [])
      ∧ w.member (lit "name") = (if s.Name = [] then none else some (.str s.Name))
      ∧ lit "id" ∈ w.keys ∧ lit "isPartOf" ∈ w.keys ∧ lit "dateModified" ∈ w.keys ∧ lit "unsafe" ∈ w.keys
      ∧ w.keys = (if s.Name = [] then [lit "id", lit "isPartOf", lit "dateModified", lit "unsafe"]
                  else [lit "id", lit "name", lit "isPartOf", lit "dateModified", lit "unsafe"]) := by
  obtain ⟨_, m4⟩ := section_members s (.str (utf8 (formatRFC3339 s.DateModified)))
  refine ⟨_, marshalSection_ok s, ?_, ?_, ?_, ?_, ?_, ?_, m4⟩
  · rw [m4]; by_cases h : s.Name = [] <;> simp [h, lit_eq_iff]
  · by_cases h : s.Name = [] <;> simp [JValue.member, List.lookup, omitEmpty, h, lit_beq]
  · rw [m4]; split_ifs <;> simp [lit_eq_iff]
  · rw [m4]; split_ifs <;> simp [lit_eq_iff]
  · rw [m4]; split_ifs <;> simp [lit_eq_iff]
  · rw [m4]; split_ifs <;> simp [lit_eq_iff]

/-- Witness for C6: an unnamed section has four keys, none of them `name`. -/
theorem C6_section_name_omitted_when_empty_witness :
    ∃ w, marshalSection ⟨lit "s1", [], some [lit "Q1"], zeroTime, lit "text"⟩ = .ok w
      ∧ ¬ lit "name" ∈ w.keys ∧ w.member (lit "name") = none
      ∧ w.keys = [lit "id", lit "isPartOf", lit "dateModified", lit "unsafe"] := by
  obtain ⟨w, h1, h2, h3, _, _, _, _, h8⟩ :=
    C6_section_name_omitted_when_empty ⟨lit "s1", [], some [lit "Q1"], zeroTime, lit "text"⟩
  exact ⟨w, h1, fun hn => (h2.1 hn) rfl, h3, h8⟩


theorem keys_omitEmpty (name : String) (s : GoString) :
    (omitEmpty name s).map Prod.fst = if s = [] then [] else [lit name] := by
  unfold omitEmpty
  split_ifs <;> rfl

/-- C7: for every `Thing`, the encoded JSON object has the keys `@context`, `@type` and `sameAs`
always, and each of `alternateName`, `description`, `image` and `name` exactly when that field is
not empty; the keys are written in the order `@context`, `@type`, `alternateName`, `description`,
`image`, `name`, `sameAs`.  The `Thing` returned by `NewThing` encodes to exactly
`{"@context":"https://schema.org","@type":"Thing","sameAs":""}`. -/
theorem C7_thing_keys (t : Thing) :
    (marshalThing t).keys
        = [lit "@context", lit "@type"]
          ++ (if t.AlternateName = [] then [] else [lit "alternateName"])
          ++ (if t.Description = [] then [] else [lit "description"])
          ++ (if t.Image = [] then [] else [lit "image"])
          ++ (if t.Name = [] then [] else [lit "name"])
          ++ [lit "sameAs"]
    ∧ (lit "alternateName" ∈ (marshalThing t).keys ↔ t.AlternateName ≠ [])
    ∧ (lit "description" ∈ (marshalThing t).keys ↔ t.Description ≠ [])
    ∧ (lit "image" ∈ (marshalThing t).keys ↔ t.Image ≠ [])
    ∧ (lit "name" ∈ (marshalThing t).keys ↔ t.Name ≠ [])
    ∧ (marshalThing NewThing).render
        = lit "\x7b\"@context\":\"https://schema.org\",\"@type\":\"Thing\",\"sameAs\":\"\"\x7d" := by
  have hk : (marshalThing t).keys
        = [lit "@context", lit "@type"]
          ++ (if t.AlternateName = [] then [] else [lit "alternateName"])
          ++ (if t.Description = [] then [] else [lit "description"])
          ++ (if t.Image = [] then [] else [lit "image"])
          ++ (if t.Name = [] then [] else [lit "name"])
          ++ [lit "sameAs"] := by
    simp only [marshalThing, JValue.keys, List.map_append, keys_omitEmpty]
    rfl
  refine ⟨hk, ?_, ?_, ?_, ?_, by rfl⟩
  · rw [hk]
    by_cases h1 : t.AlternateName = [] <;> by_cases h2 : t.Description = []
      <;> by_cases h3 : t.Image = [] <;> by_cases h4 : t.Name = [] <;> simp [h1, h2, h3, h4, lit_eq_iff]
  · rw [hk]
    by_cases h1 : t.AlternateName = [] <;> by_cases h2 : t.Description = []
      <;> by_cases h3 : t.Image = [] <;> by_cases h4 : t.Name = [] <;> simp [h1, h2, h3, h4, lit_eq_iff]
  · rw [hk]
    by_cases h1 : t.AlternateName = [] <;> by_cases h2 : t.Description = []
      <;> by_cases h3 : t.Image = [] <;> by_cases h4 : t.Name = [] <;> simp [h1, h2, h3, h4, lit_eq_iff]
  · rw [hk]
    by_cases h1 : t.AlternateName = [] <;> by_cases h2 : t.Description = []
      <;> by_cases h3 : t.Image = [] <;> by_cases h4 : t.Name = [] <;> simp [h1, h2, h3, h4, lit_eq_iff]

/-- Witness for C7: a `Thing` with a name and an image only. -/
theorem C7_thing_keys_witness :
    (marshalThing { NewThing with Name := lit "Earth", Image := lit "earth.png" }).keys
      = [lit "@context", lit "@type", lit "image", lit "name", lit "sameAs"]
    ∧ (marshalThing NewThing).render
        = lit "\x7b\"@context\":\"https://schema.org\",\"@type\":\"Thing\",\"sameAs\":\"\"\x7d" :=
  ⟨(C7_thing_keys { NewThing with Name := lit "Earth", Image := lit "earth.png" }).1,
   (C7_thing_keys NewThing).2.2.2.2.2⟩

/-- C8: two `Thing` values that agree on every field except the identity token `metadata.ID` have
byte-for-byte identical JSON encodings: the token is never written and has no influence on the
output. -/
theorem C8_identity_token_not_written (a b : Thing)
    (hc : a.metadata.Context = b.metadata.Context) (ht : a.metadata.Type_ = b.metadata.Type_)
    (h1 : a.AlternateName = b.AlternateName) (h2 : a.Description = b.Description)
    (h3 : a.Image = b.Image) (h4 : a.Name = b.Name) (h5 : a.SameAs = b.SameAs) :
    (marshalThing a).render = (marshalThing b).render := by
  unfold marshalThing
  rw [hc, ht, h1, h2, h3, h4, h5]

/-- Witness for C8: two descriptors that differ in the identity token only. -/
theorem C8_identity_token_not_written_witness :
    (marshalThing { NewThing with metadata := { NewThing.metadata with ID := 1 } }).render
      = (marshalThing { NewThing with metadata := { NewThing.metadata with ID := 2 } }).render :=
  C8_identity_token_not_written _ _ rfl rfl rfl rfl rfl rfl rfl

/-- C9, where the claim fails: the identity token of the `Thing` that `NewThing` returns is the
zero UUID; `NewThing` sets `Context` and `Type` only and generates nothing. -/
theorem C9_identity_token_is_zero :
    ¬ (NewThing.metadata.ID ≠ uuidNil ∧ NewThing.metadata.Context = lit "https://schema.org"
        ∧ NewThing.metadata.Type_ = lit "Thing") := by
  decide

/-- C9, as amended: every `Thing` returned by `NewThing` carries the fixed `@context`
`https://schema.org` and the default `@type` `Thing`, has every descriptive field empty, and has
its identity token `metadata.ID` left at the zero UUID: no token is generated at creation. -/
theorem C9_newThing_fields :
    NewThing.metadata.Context = lit "https://schema.org" ∧ NewThing.metadata.Type_ = lit "Thing"
    ∧ NewThing.metadata.ID = uuidNil
    ∧ NewThing.AlternateName = [] ∧ NewThing.Description = [] ∧ NewThing.Image = []
    ∧ NewThing.Name = [] ∧ NewThing.SameAs = [] := by
  decide

theorem lookup_of_mem (l : List (GoString × JValue)) (hn : (l.map Prod.fst).Nodup)
    (k : GoString) (v : JValue) (hm : (k, v) ∈ l) : l.lookup k = some v := by
  induction l with
  | nil => simp at hm
  | cons e es ih =>
    obtain ⟨k2, v2⟩ := e
    simp only [List.map_cons, List.nodup_cons] at hn
    rcases List.mem_cons.1 hm with hm | hm
    · injection hm with h1 h2
      subst h1; subst h2
      simp [List.lookup]
    · have hk : k ∈ es.map Prod.fst := List.mem_map.2 ⟨(k, v), hm, rfl⟩
      have hne : k ≠ k2 := fun e => hn.1 (e ▸ hk)
      have hb : (k == k2) = false := by simpa using hne
      simp only [List.lookup, hb]
      exact ih hn.2 hm

set_option maxRecDepth 1000000 in
/-- C10, where the claim fails.  For a page whose `HasPart` and `About` are nil, as in the zero
value, the text has `null` under `hasPart` and under `about`: no array and no object.  For a
page with the part `0xff` and `About` entries under the keys `0xfe` and `0xff`, which are not
valid UTF-8, the array lists U+FFFD instead of the part, and the object has two members of the
same name U+FFFD, neither a key of `About`. -/
theorem C10_nil_collections_and_invalid_strings :
    (∃ v, renderResult (marshalPage zeroPage) = .ok (lit "\x7b\"identifier\":\"\",\"_source\":\x7b\"id\":0,\"revision\":0,\"tid\":\"\",\"authority\":\"\"\x7d,\"name\":\"\",\"url\":\"\",\"dateModified\":\"0001-01-01T00:00:00Z\",\"hasPart\":null,\"about\":null\x7d")
      ∧ parseJSON (lit "\x7b\"identifier\":\"\",\"_source\":\x7b\"id\":0,\"revision\":0,\"tid\":\"\",\"authority\":\"\"\x7d,\"name\":\"\",\"url\":\"\",\"dateModified\":\"0001-01-01T00:00:00Z\",\"hasPart\":null,\"about\":null\x7d") = some v
      ∧ zeroPage.HasPart = none ∧ zeroPage.About = none
      ∧ v.member (lit "hasPart") = some .null ∧ v.member (lit "about") = some .null)
    ∧ (∃ v, renderResult (marshalPage invalidKeysPage) = .ok (lit "\x7b\"identifier\":\"\",\"_source\":\x7b\"id\":0,\"revision\":0,\"tid\":\"\",\"authority\":\"\"\x7d,\"name\":\"\",\"url\":\"\",\"dateModified\":\"0001-01-01T00:00:00Z\",\"hasPart\":[\"\\ufffd\"],\"about\":\x7b\"\\ufffd\":\"a\",\"\\ufffd\":\"b\"\x7d\x7d")
      ∧ parseJSON (lit "\x7b\"identifier\":\"\",\"_source\":\x7b\"id\":0,\"revision\":0,\"tid\":\"\",\"authority\":\"\"\x7d,\"name\":\"\",\"url\":\"\",\"dateModified\":\"0001-01-01T00:00:00Z\",\"hasPart\":[\"\\ufffd\"],\"about\":\x7b\"\\ufffd\":\"a\",\"\\ufffd\":\"b\"\x7d\x7d") = some v
      ∧ invalidKeysPage.HasPart = some [[255]]
      ∧ invalidKeysPage.About = some [([254], lit "a"), ([255], lit "b")]
      ∧ v.member (lit "hasPart") = some (.arr [.str [239, 191, 189]])
      ∧ v.member (lit "about")
          = some (.obj [([239, 191, 189], .str (lit "a")), ([239, 191, 189], .str (lit "b"))])) := by
  exact ⟨⟨_, by rfl, by rfl, rfl, rfl, by rfl, by rfl⟩, ⟨_, by rfl, by rfl, rfl, rfl, by rfl, by rfl⟩⟩

/-- C10, as amended: for every `Page` `p` that Go can hold and whose strings are all valid UTF-8,
the encoded text is a JSON object in which the value under `hasPart` is the array of the elements
of `p.HasPart` in their original order when the slice is not nil, and `null` when it is nil; the
value under `about` is, when the map is not nil, an object that has exactly the entries of
`p.About`, each key once and mapped to its own value, written in byte-wise key order, and `null`
when the map is nil. -/
theorem C10_hasPart_order_and_about_entries (p : Page) (h : p.wf) (hv : p.validUTF8) :
    ∃ text v, renderResult (marshalPage p) = .ok text ∧ parseJSON text = some v
      ∧ (∀ xs, p.HasPart = some xs → v.member (lit "hasPart") = some (.arr (xs.map JValue.str)))
      ∧ (p.HasPart = none → v.member (lit "hasPart") = some .null)
      ∧ (∀ es, p.About = some es → ∃ a, v.member (lit "about") = some (.obj a)
          ∧ a.Perm (es.map fun e => (e.1, JValue.str e.2))
          ∧ a = (sortEntries es).map (fun e => (e.1, JValue.str e.2))
          ∧ (a.map Prod.fst).Nodup
          ∧ ∀ e ∈ es, (JValue.obj a).member e.1 = some (.str e.2))
      ∧ (p.About = none → v.member (lit "about") = some .null) := by
  obtain ⟨m1, m2⟩ := member_page p (.str (utf8 (formatRFC3339 p.DateModified)))
  refine ⟨_, _, by rw [marshalPage_ok]; rfl, parseJSON_page p h hv, ?_, ?_, ?_, ?_⟩
  · intro xs hx; rw [m1, hx]; rfl
  · intro hx; rw [m1, hx]; rfl
  · intro es he
    have hp : ((sortEntries es).map fun e => (e.1, JValue.str e.2)).Perm
        (es.map fun e => (e.1, JValue.str e.2)) := (sortEntries_perm es).map _
    have hn : (((sortEntries es).map fun e => (e.1, JValue.str e.2)).map Prod.fst).Nodup := by
      have h2 := h.2
      rw [he] at h2
      have h3 := sortEntries_keys_nodup es h2
      simpa [entryKeys, List.map_map, Function.comp] using h3
    refine ⟨_, by rw [m2, he]; rfl, hp, rfl, hn, ?_⟩
    intro e hm
    refine lookup_of_mem _ hn e.1 (.str e.2) (hp.mem_iff.2 ?_)
    exact List.mem_map.2 ⟨e, hm, rfl⟩
  · intro hx; rw [m2, hx]; rfl

/-- Witness for C10: the example page of the specification, with `hasPart` `["sec-1","sec-2"]` in
that order and the single `about` entry `wikidata` mapped to `Q2`. -/
theorem C10_hasPart_order_and_about_entries_witness :
    examplePage.wf ∧ examplePage.validUTF8
    ∧ ∃ text v, renderResult (marshalPage examplePage) = .ok text ∧ parseJSON text = some v
      ∧ v.member (lit "hasPart") = some (.arr [.str (lit "sec-1"), .str (lit "sec-2")])
      ∧ v.member (lit "about") = some (.obj [(lit "wikidata", .str (lit "Q2"))]) := by
  obtain ⟨text, v, h1, h2, h3, _, h5, _⟩ :=
    C10_hasPart_order_and_about_entries examplePage (by decide) examplePage_validUTF8
  obtain ⟨a, h6, _, h7, _⟩ := h5 _ rfl
  refine ⟨by decide, examplePage_validUTF8, text, v, h1, h2, h3 _ rfl, ?_⟩
  rw [h6, h7]
  rfl

end common
